import Mathlib

/-!
Shallow embedding of the dataset readers of osbenchmark/utils/dataset.py:
the HDF5 (hierarchical) reader, the Parquet (columnar) reader with its
batch-stitching loop, and the BigANN flat-binary reader, together with the
factory get_data_set.  Stateful Python objects become explicit state records,
Python exceptions become error values (grouped by the category they denote),
and the file system is passed in explicitly (the h5py dataset selected by the
context, the record batches yielded by the parquet batch iterator, the raw
bytes of the flat binary file).  The parquet extraction loop, which in Python
is an unbounded while-loop, is given explicit fuel; a dedicated result
constructor records fuel exhaustion, and the fuel supplied by the wrapper
exceeds the number of iterations any terminating run of the loop can take.
-/

namespace Dataset

/-- Category of a raised Python exception.  The source raises plain
Exception / ConfigurationError / InvalidExtensionException; the categories
follow what the message denotes: configuration errors, seek range errors,
file format errors, OS-level resource errors, struct decode errors, and an
uncaught StopIteration from the parquet batch iterator. -/
inductive Err where
  | configError
  | rangeError
  | formatError
  | resourceError
  | decodeError
  | stopIteration
deriving DecidableEq

/-- Python slice-index normalization for a sequence of length n: a negative
index counts from the end (clamped below at 0), a non-negative index is
clamped above at n. -/
def pyIdx (n : Nat) (i : Int) : Nat :=
  if i < 0 then ((n : Int) + i).toNat else min i.toNat n

/-- Python slice l[a:b] with step 1 (list / numpy / pyarrow row semantics). -/
def pySlice {α : Type} (l : List α) (a b : Int) : List α :=
  (l.take (pyIdx l.length b)).drop (pyIdx l.length a)

/-- Python slice l[a:] with step 1. -/
def pySliceFrom {α : Type} (l : List α) (a : Int) : List α :=
  l.drop (pyIdx l.length a)

/-- DataSet context enum (dataset.py, Context). -/
inductive Context where
  | INDEX
  | QUERY
  | NEIGHBORS
deriving DecidableEq

/-! ## HDF5DataSet

The file content visible to this reader is the h5py dataset stored under the
field selected by the parsed context; it is passed to each operation as the
parameter content : List alpha (one element per stored vector). -/

/-- HDF5DataSet.parse_context: maps the context enum to the field name; any
other value (modelled by none) raises, which the spec's taxonomy classes as
a configuration error. -/
def parse_context : Option Context → Except Err String
  | some .NEIGHBORS => .ok "neighbors"
  | some .INDEX => .ok "train"
  | some .QUERY => .ok "test"
  | none => .error .configError

/-- State of an HDF5DataSet handle: path, parsed context field name, the
cursor (self.current), and the lazily loaded dataset (self.data, None until
the first access). -/
structure HDF5DataSet (α : Type) where
  dataset_path : String
  context : String
  current : Int
  data : Option (List α)
deriving DecidableEq

namespace HDF5DataSet

/-- HDF5DataSet.__init__: stores the path and parses the context (raising on
an unrecognized one); the cursor starts at BEGINNING = 0 and data at None. -/
def init (α : Type) (dataset_path : String) (context : Option Context) :
    Except Err (HDF5DataSet α) :=
  (parse_context context).map fun c => ⟨dataset_path, c, 0, none⟩

/-- HDF5DataSet._load: opens the file and selects the context field on first
access. -/
def load {α : Type} (content : List α) (st : HDF5DataSet α) : HDF5DataSet α :=
  if st.data.isNone then { st with data := some content } else st

/-- HDF5DataSet.size (after the internal _load). -/
def size {α : Type} (content : List α) (st : HDF5DataSet α) :
    Nat × HDF5DataSet α :=
  let st := load content st
  ((st.data.getD []).length, st)

/-- HDF5DataSet.read: loads, returns None once the cursor has reached the
size, otherwise slices [current, min(current+chunk_size, size)) and advances
the cursor. -/
def read {α : Type} (content : List α) (chunk_size : Int) (st : HDF5DataSet α) :
    HDF5DataSet α × Except Err (Option (List α)) :=
  let st := load content st
  let sz : Int := (st.data.getD []).length
  if st.current ≥ sz then (st, .ok none)
  else
    let end_offset := if st.current + chunk_size > sz then sz else st.current + chunk_size
    ({ st with current := end_offset },
     .ok (some (pySlice (st.data.getD []) st.current end_offset)))

/-- HDF5DataSet.seek: raises for offset < 0 before loading, then loads (via
size) and raises for offset ≥ size; on success only the cursor moves.  The
error component is none on success. -/
def seek {α : Type} (content : List α) (offset : Int) (st : HDF5DataSet α) :
    HDF5DataSet α × Option Err :=
  if offset < 0 then (st, some .rangeError)
  else
    let st := load content st
    if offset ≥ ((st.data.getD []).length : Int) then (st, some .rangeError)
    else ({ st with current := offset }, none)

/-- HDF5DataSet.reset: rewinds the cursor only; the loaded data is kept. -/
def reset {α : Type} (st : HDF5DataSet α) : HDF5DataSet α :=
  { st with current := 0 }

end HDF5DataSet

/-! ## ParquetDataSet

The parquet file is visible to the reader through two capabilities: the
metadata row count (metadata.num_rows, parameter nrows) and the batch
iterator (iter_batches over the selected column, parameter batches : the list
of record batches it yields, each batch a list of rows).  The iterator state
is the count of batches already pulled (field it). -/

/-- State of a ParquetDataSet handle.  prev_batch = [] models Python's empty
list used as the no-leftover sentinel (an empty list is falsy). -/
structure ParquetDataSet (α : Type) where
  dataset_path : String
  column : String
  file : Option Unit
  current : Int
  it : Nat
  prev_batch : List α
  file_batch_start : Int
  file_batch_end : Int
deriving DecidableEq

/-- Result of the extraction loop: a normal return with the collected
vectors, a propagated exception, or fuel exhaustion (the Python loop would
iterate forever). -/
inductive PqRes (α : Type) where
  | ok (vectors : List α) (st : ParquetDataSet α)
  | err (e : Err) (st : ParquetDataSet α)
  | diverge
deriving DecidableEq

/-- Result of ParquetDataSet.read: an optional vector batch (none is the
empty marker returned once the cursor has reached the size), a propagated
exception, or divergence of the extraction loop. -/
inductive PqReadRes (α : Type) where
  | ok (batch : Option (List α)) (st : ParquetDataSet α)
  | err (e : Err) (st : ParquetDataSet α)
  | diverge
deriving DecidableEq

namespace ParquetDataSet

/-- ParquetDataSet.__init__: rejects an empty/None path and an empty/None
column with a ConfigurationError, otherwise starts unloaded with cursor 0. -/
def init (α : Type) (dataset_path : String) (column : Option String) :
    Except Err (ParquetDataSet α) :=
  if dataset_path = "" then .error .configError
  else
    match column with
    | none => .error .configError
    | some c =>
      if c = "" then .error .configError
      else .ok ⟨dataset_path, c, none, 0, 0, [], 0, 0⟩

/-- ParquetDataSet._load: on first access opens the file and creates a fresh
batch iterator, clearing the leftover batch and the window bounds. -/
def load {α : Type} (st : ParquetDataSet α) : ParquetDataSet α :=
  if st.file.isNone then
    { st with file := some (), it := 0, prev_batch := [],
              file_batch_start := 0, file_batch_end := 0 }
  else st

/-- ParquetDataSet.get_batch: returns the leftover batch if one is held,
otherwise pulls the next batch from the iterator (next raises StopIteration
when exhausted) and advances the window to cover it. -/
def get_batch {α : Type} (batches : List (List α)) (st : ParquetDataSet α) :
    Except Err (List α × ParquetDataSet α) :=
  if ¬ st.prev_batch.isEmpty then .ok (st.prev_batch, st)
  else
    match batches[st.it]? with
    | none => .error .stopIteration
    | some b =>
      .ok (b, { st with it := st.it + 1,
                        file_batch_start := st.file_batch_end,
                        file_batch_end := st.file_batch_end + b.length })

/-- One-to-one rendering of the while-loop body of
ParquetDataSet._extract_vectors, with explicit fuel.  Each recursive call is
one further iteration of the Python loop. -/
def extractLoop {α : Type} (batches : List (List α)) :
    Nat → ParquetDataSet α → Int → Int → List α → PqRes α
  | 0, _, _, _, _ => .diverge
  | fuel + 1, st, start_offset, end_offset, vectors =>
    match get_batch batches st with
    | .error e => .err e st
    | .ok (batch, st) =>
      if batch.isEmpty then .ok vectors st
      else
        if start_offset > st.file_batch_end then
          -- run through batches till start_offset is inside the batch
          extractLoop batches fuel st start_offset end_offset vectors
        else
          let start_offset :=
            if start_offset < st.file_batch_start then st.file_batch_start
            else start_offset
          let copy_begin_offset :=
            (batch.length : Int) - (st.file_batch_end - start_offset)
          if end_offset ≤ st.file_batch_end then
            .ok (vectors ++ pySlice batch copy_begin_offset
                   ((batch.length : Int) - (st.file_batch_end - end_offset)))
               { st with prev_batch := batch }
          else
            extractLoop batches fuel { st with prev_batch := [] }
              start_offset end_offset
              (vectors ++ pySliceFrom batch copy_begin_offset)

/-- ParquetDataSet._extract_vectors.  A terminating run of the loop pulls at
most batches.length times from the iterator and reuses the leftover batch in
at most one further iteration, so batches.length + 2 fuel never cuts a
terminating run short; .diverge therefore reports a run that loops. -/
def extract_vectors {α : Type} (batches : List (List α))
    (st : ParquetDataSet α) (start_offset end_offset : Int) : PqRes α :=
  extractLoop batches (batches.length + 2) st start_offset end_offset []

/-- ParquetDataSet.read: loads, returns the empty marker once the cursor has
reached the metadata row count, otherwise extracts rows
[current, min(current+chunk_size, size)) and advances the cursor. -/
def read {α : Type} (batches : List (List α)) (nrows : Nat) (chunk_size : Int)
    (st : ParquetDataSet α) : PqReadRes α :=
  let st := load st
  if st.current ≥ (nrows : Int) then .ok none st
  else
    let end_offset :=
      if st.current + chunk_size > (nrows : Int) then (nrows : Int)
      else st.current + chunk_size
    match extract_vectors batches st st.current end_offset with
    | .ok vs st => .ok (some vs) { st with current := end_offset }
    | .err e st => .err e st
    | .diverge => .diverge

/-- ParquetDataSet.seek: raises for offset < 0 before loading, then loads
(via size) and raises for offset ≥ size; on success only the cursor moves. -/
def seek {α : Type} (nrows : Nat) (offset : Int) (st : ParquetDataSet α) :
    ParquetDataSet α × Option Err :=
  if offset < 0 then (st, some .rangeError)
  else
    let st := load st
    if offset ≥ (nrows : Int) then (st, some .rangeError)
    else ({ st with current := offset }, none)

/-- ParquetDataSet.size: loads and reads the metadata row count. -/
def size {α : Type} (nrows : Nat) (st : ParquetDataSet α) :
    Nat × ParquetDataSet α :=
  (nrows, load st)

/-- ParquetDataSet.reset: rewinds the cursor and discards the open file, so
the next access re-opens and re-creates the iterator from the beginning. -/
def reset {α : Type} (st : ParquetDataSet α) : ParquetDataSet α :=
  { st with current := 0, file := none }

end ParquetDataSet

/-! ## BigANNVectorDataSet

The flat binary file is passed to each operation as
content : Option (List Byte): some bytes when open() succeeds on the
handle's path and none when it fails at the OS level (missing/unopenable
file).  The open stream's state is its byte position (field file). -/

/-- A byte of the flat binary file. -/
abbrev Byte := Fin 256

/-- int.from_bytes(bs, "little"): little-endian base-256 value; the empty
byte string decodes to 0. -/
def leNat (l : List Byte) : Nat :=
  l.foldr (fun b acc => b.val + 256 * acc) 0

/-- Value of a Python float: a finite IEEE-754 value is an exact rational;
the three non-finite kinds are kept apart (they have no rational value). -/
inductive PyFloat where
  | finite (q : ℚ)
  | inf
  | negInf
  | nan
deriving DecidableEq

/-- Signed integer from a sign bit and a magnitude. -/
def signed (s : Nat) (n : Nat) : Int :=
  if s = 0 then (n : Int) else -(n : Int)

/-- Decode of a 32-bit word as an IEEE-754 binary32 float (what
struct.unpack('<f', ...) computes after the little-endian byte order is
absorbed into the word): sign s, biased exponent e, mantissa m; a subnormal
(e = 0) is m * 2^(-149), a normal value is (2^23 + m) * 2^(e - 150), both
signed.  The rational is built with mkRat, splitting on the sign of the
exponent so that only integer arithmetic is involved. -/
def fp32 (w : Nat) : PyFloat :=
  let s : Nat := w / 2 ^ 31 % 2
  let e : Nat := w / 2 ^ 23 % 2 ^ 8
  let m : Nat := w % 2 ^ 23
  if e = 0 then .finite (mkRat (signed s m) (2 ^ 149))
  else if e = 255 then
    if m = 0 then (if s = 0 then .inf else .negInf) else .nan
  else
    if 150 ≤ e then .finite (mkRat (signed s ((2 ^ 23 + m) * 2 ^ (e - 150))) 1)
    else .finite (mkRat (signed s (2 ^ 23 + m)) (2 ^ (150 - e)))

/-- One decoded vector component as the Python reader produces it: the u8bin
reader yields a plain float scalar (float(int.from_bytes(...))), while the
fbin reader yields the unextracted 1-tuple that struct.unpack returns. -/
inductive PyVal where
  | scalar (f : PyFloat)
  | tuple1 (f : PyFloat)
deriving DecidableEq

/-- Python str.split('.') over the character list: splitting the empty
string gives [""], a trailing separator yields a trailing empty segment. -/
def splitDot : List Char → List (List Char)
  | [] => [[]]
  | c :: cs =>
    let r := splitDot cs
    if c = '.' then [] :: r
    else
      match r with
      | [] => [[c]]
      | h :: t => (c :: h) :: t

/-- Extension of a file name: file_name.split('.')[-1]. -/
def extOf (file_name : String) : String :=
  String.mk ((splitDot file_name.data).getLastD [])

/-- State of a BigANNVectorDataSet handle: path, the lazily opened stream
(file, carrying its byte position; none until the first access), the cursor,
and the header metadata filled in by _init_internal_params. -/
structure BigANNVectorDataSet where
  dataset_path : String
  file : Option Nat
  current : Int
  num_points : Nat
  dimension : Nat
  bytes_per_num : Nat
deriving DecidableEq

namespace BigANNVectorDataSet

/-- BigANNVectorDataSet.__init__: no validation happens at construction;
the file is opened lazily on first access. -/
def init (dataset_path : String) : BigANNVectorDataSet :=
  ⟨dataset_path, none, 0, 0, 0, 0⟩

/-- BigANNVectorDataSet._get_extension: raises InvalidExtensionException (a
format error) unless the extension is fbin or u8bin. -/
def get_extension (file_name : String) : Except Err String :=
  let ext := extOf file_name
  if ext = "fbin" ∨ ext = "u8bin" then .ok ext else .error .formatError

/-- BigANNVectorDataSet._get_data_size: bytes per value by extension.  The
final branch mirrors Python's implicit None fall-through; it is unreachable
because _get_extension already rejected any other extension. -/
def get_data_size (file_name : String) : Except Err Nat := do
  let ext ← get_extension file_name
  if ext = "u8bin" then return 1
  else if ext = "fbin" then return 4
  else return 0

/-- BigANNVectorDataSet._init_internal_params: opens the file (an OS failure
is a resource error), measures it, rejects files shorter than the 8-byte
header, reads num_points and dimension (little-endian uint32 each), derives
bytes_per_num from the extension, and validates the byte length against the
header.  After the header reads the stream position is 8.  (On the raising
paths the partially assigned Python attributes are not tracked: no operation
of the source observes them afterwards.) -/
def init_internal_params (content : Option (List Byte))
    (st : BigANNVectorDataSet) : Except Err BigANNVectorDataSet :=
  match content with
  | none => .error .resourceError
  | some bytes =>
    let num_bytes := bytes.length
    if num_bytes < 8 then .error .formatError
    else do
      let num_points := leNat (bytes.take 4)
      let dimension := leNat ((bytes.drop 4).take 4)
      let bytes_per_num ← get_data_size st.dataset_path
      if num_bytes - 8 ≠ num_points * dimension * bytes_per_num then
        .error .formatError
      else
        .ok { st with file := some 8, num_points := num_points,
                      dimension := dimension, bytes_per_num := bytes_per_num }

/-- BigANNVectorDataSet._load: initializes on first access only. -/
def load (content : Option (List Byte)) (st : BigANNVectorDataSet) :
    Except Err BigANNVectorDataSet :=
  if st.file.isNone then init_internal_params content st else .ok st

/-- One application of the reader returned by _value_reader, at stream
position pos: the u8bin reader turns 1 byte (less at end of file: a short
read feeds int.from_bytes, which accepts it, so the value degrades silently)
into a float scalar; the fbin reader unpacks 4 bytes into a 1-tuple, and
struct.unpack raises (struct.error, a decode error) on a short read.  A
loaded reader's extension is always one of the two supported ones, so the
non-u8bin branch is the fbin reader.  Returns the value and the new stream
position (file.read advances by the number of bytes actually read). -/
def readValue (ext : String) (bytes : List Byte) (pos : Nat) :
    Except Err (PyVal × Nat) :=
  if ext = "u8bin" then
    .ok (.scalar (.finite (leNat (pySlice bytes (pos : Int) ((pos : Int) + 1)))),
         min (pos + 1) bytes.length)
  else
    let chunk := pySlice bytes (pos : Int) ((pos : Int) + 4)
    if chunk.length = 4 then .ok (.tuple1 (fp32 (leNat chunk)), pos + 4)
    else .error .decodeError

/-- BigANNVectorDataSet._read_vector: dimension consecutive values. -/
def readVec (ext : String) (bytes : List Byte) :
    Nat → Nat → Except Err (List PyVal × Nat)
  | 0, pos => .ok ([], pos)
  | d + 1, pos => do
    let (v, pos) ← readValue ext bytes pos
    let (vs, pos) ← readVec ext bytes d pos
    return (v :: vs, pos)

/-- The list comprehension of BigANNVectorDataSet.read: count consecutive
vectors of the given dimension. -/
def readVecs (ext : String) (bytes : List Byte) (dimension : Nat) :
    Nat → Nat → Except Err (List (List PyVal) × Nat)
  | 0, pos => .ok ([], pos)
  | k + 1, pos => do
    let (v, pos) ← readVec ext bytes dimension pos
    let (vs, pos) ← readVecs ext bytes dimension k pos
    return (v :: vs, pos)

/-- BigANNVectorDataSet.size (after the internal _load). -/
def size (content : Option (List Byte)) (st : BigANNVectorDataSet) :
    Except Err (Nat × BigANNVectorDataSet) :=
  (load content st).map fun st => (st.num_points, st)

/-- BigANNVectorDataSet.read: loads, returns None once the cursor has
reached num_points, otherwise decodes min(chunk_size, size-current) vectors
from the stream position and advances cursor and stream. -/
def read (content : Option (List Byte)) (chunk_size : Int)
    (st : BigANNVectorDataSet) :
    BigANNVectorDataSet × Except Err (Option (List (List PyVal))) :=
  match load content st with
  | .error e => (st, .error e)
  | .ok st =>
    if st.current ≥ (st.num_points : Int) then (st, .ok none)
    else
      let end_offset :=
        if st.current + chunk_size > (st.num_points : Int) then
          (st.num_points : Int)
        else st.current + chunk_size
      let bytes := content.getD []
      match readVecs (extOf st.dataset_path) bytes st.dimension
              (end_offset - st.current).toNat (st.file.getD 0) with
      | .error e => (st, .error e)
      | .ok (vs, pos) =>
        ({ st with current := end_offset, file := some pos }, .ok (some vs))

/-- BigANNVectorDataSet.seek: loads first, checks the bounds, then moves the
stream to 8 + dimension * bytes_per_num * offset and the cursor to offset. -/
def seek (content : Option (List Byte)) (offset : Int)
    (st : BigANNVectorDataSet) : BigANNVectorDataSet × Option Err :=
  match load content st with
  | .error e => (st, some e)
  | .ok st =>
    if offset < 0 then (st, some .rangeError)
    else if offset ≥ (st.num_points : Int) then (st, some .rangeError)
    else
      ({ st with file := some (8 + st.dimension * st.bytes_per_num * offset.toNat),
                 current := offset }, none)

/-- BigANNVectorDataSet.reset: repositions the stream (if one is open) to
byte 8, right past the header, and rewinds the cursor; the open file and the
header metadata are kept. -/
def reset (st : BigANNVectorDataSet) : BigANNVectorDataSet :=
  { st with file := st.file.map fun _ => 8, current := 0 }

end BigANNVectorDataSet

/-! ## get_data_set -/

/-- A reader returned by the factory. -/
inductive AnyDataSet (α : Type) where
  | hdf5 (d : HDF5DataSet α)
  | bigann (d : BigANNVectorDataSet)
  | parquet (d : ParquetDataSet α)
deriving DecidableEq

/-- get_data_set: dispatches on the format name, raising a
ConfigurationError for an unrecognized one. -/
def get_data_set (α : Type) (data_set_format : String) (path : String)
    (context : Option Context) (column_name : Option String) :
    Except Err (AnyDataSet α) :=
  if data_set_format = "hdf5" then (HDF5DataSet.init α path context).map .hdf5
  else if data_set_format = "bigann" then
    .ok (.bigann (BigANNVectorDataSet.init path))
  else if data_set_format = "parquet" then
    (ParquetDataSet.init α path column_name).map .parquet
  else .error .configError

/-! ## Derived definitions used by the verification -/

deriving instance DecidableEq for Except

/-- Batch component of a parquet read result. -/
def pqValue {α : Type} : PqReadRes α → Option (List α)
  | .ok b _ => b
  | _ => none

/-- Total number of rows held by a list of batches. -/
def sumLen {α : Type} (bs : List (List α)) : Nat := (bs.map List.length).sum

/-- Number of rows covered by the first k batches. -/
def sumLenTake {α : Type} (bs : List (List α)) (k : Nat) : Nat :=
  sumLen (bs.take k)

/-- Rows [a, b) of the whole file, in batch order. -/
def rowsIn {α : Type} (bs : List (List α)) (a b : Nat) : List α :=
  (bs.flatten.take b).drop a

/-- State invariant of the parquet reader between reads, at read position c:
the file is open, the window end is the row count of the batches pulled so
far, and either no leftover batch is held and c sits exactly at the window
end, or the leftover batch is the last pulled batch, the window covers
exactly it, and c lies inside the window. -/
def pqInv {α : Type} (bs : List (List α)) (st : ParquetDataSet α) (c : Int) :
    Prop :=
  st.file = some () ∧ 0 ≤ c ∧ st.it ≤ bs.length ∧
  st.file_batch_end = (sumLenTake bs st.it : Int) ∧
  ((st.prev_batch = [] ∧ c = st.file_batch_end) ∨
   (st.prev_batch ≠ [] ∧ 1 ≤ st.it ∧ bs[st.it - 1]? = some st.prev_batch ∧
    st.file_batch_start = (sumLenTake bs (st.it - 1) : Int) ∧
    st.file_batch_start ≤ c ∧ c ≤ st.file_batch_end))

/-- A sequence of parquet reads with the given chunk sizes; none when some
read fails to return a batch (empty marker, exception or divergence). -/
def pqReadSeq {α : Type} (bs : List (List α)) (nrows : Nat)
    (st : ParquetDataSet α) : List Int → Option (List (List α) × ParquetDataSet α)
  | [] => some ([], st)
  | c :: cs =>
    match ParquetDataSet.read bs nrows c st with
    | .ok (some vs) st => (pqReadSeq bs nrows st cs).map fun p => (vs :: p.1, p.2)
    | _ => none

/-- Successive chunks of the given sizes cut from a row list. -/
def chunkSplit {α : Type} : List α → List Int → List (List α)
  | _, [] => []
  | rows, c :: cs => rows.take c.toNat :: chunkSplit (rows.drop c.toNat) cs

/-- Bytes per value determined by a supported extension (1 for u8bin, 4 for
fbin). -/
def bpnOf (ext : String) : Nat := if ext = "u8bin" then 1 else 4

/-- Value the flat reader decodes at byte position pos (scalar for u8bin,
1-tuple for fbin). -/
def valAt (ext : String) (bytes : List Byte) (pos : Nat) : PyVal :=
  if ext = "u8bin" then
    .scalar (.finite (leNat (pySlice bytes (pos : Int) ((pos : Int) + 1))))
  else .tuple1 (fp32 (leNat (pySlice bytes (pos : Int) ((pos : Int) + 4))))

/-- Vector of dimension d whose values start at byte position pos. -/
def rowAt (ext : String) (bytes : List Byte) (d bpn pos : Nat) : List PyVal :=
  (List.range d).map fun i => valAt ext bytes (pos + i * bpn)

/-- k consecutive vectors starting at byte position pos. -/
def rowsFromPos (ext : String) (bytes : List Byte) (d bpn k pos : Nat) :
    List (List PyVal) :=
  (List.range k).map fun j => rowAt ext bytes d bpn (pos + j * (d * bpn))

/-- Header metadata triple of a flat-binary handle. -/
def bmeta (st : BigANNVectorDataSet) : Nat × Nat × Nat :=
  (st.num_points, st.dimension, st.bytes_per_num)

/-- Well-formed loaded state of the flat reader over the given file bytes:
the cursor is non-negative, the stream position matches the cursor, and the
header metadata matches what a successful _init_internal_params computed
(supported extension, file at least 8 bytes, byte length consistent). -/
def bigannWF (bytes : List Byte) (st : BigANNVectorDataSet) : Prop :=
  0 ≤ st.current ∧
  st.file = some (8 + st.dimension * st.bytes_per_num * st.current.toNat) ∧
  BigANNVectorDataSet.get_data_size st.dataset_path = .ok st.bytes_per_num ∧
  8 ≤ bytes.length ∧
  st.num_points = leNat (bytes.take 4) ∧
  st.dimension = leNat ((bytes.drop 4).take 4) ∧
  bytes.length - 8 = st.num_points * st.dimension * st.bytes_per_num

instance {α : Type} [DecidableEq α] (bs : List (List α)) (st : ParquetDataSet α)
    (c : Int) : Decidable (pqInv bs st c) := by
  unfold pqInv
  exact inferInstance

instance (bytes : List Byte) (st : BigANNVectorDataSet) :
    Decidable (bigannWF bytes st) := by
  unfold bigannWF
  exact inferInstance

/-! ## Concrete instances used by individual claims -/

/-- Synthetic two-batch parquet column (rows are labelled 0..3). -/
def cexBatches : List (List Nat) := [[0, 1], [2, 3]]

/-- Freshly constructed columnar reader over that file (4 metadata rows). -/
def cexFresh : ParquetDataSet Nat := ⟨"vec.parquet", "emb", none, 0, 0, [], 0, 0⟩

/-- State after read(2) from fresh: batch 1 leftover, window [0,2), cursor 2. -/
def cexSt1 : ParquetDataSet Nat := ⟨"vec.parquet", "emb", some (), 2, 1, [0, 1], 0, 2⟩

/-- State after a further read(2): batch 2 leftover, window [2,4), cursor 4. -/
def cexSt2 : ParquetDataSet Nat := ⟨"vec.parquet", "emb", some (), 4, 2, [2, 3], 2, 4⟩

/-- cexSt2 after seek(0): only the cursor moved; the batch state is stale. -/
def cexSt2b : ParquetDataSet Nat := ⟨"vec.parquet", "emb", some (), 0, 2, [2, 3], 2, 4⟩

/-- Fresh reader after read(0): batch 1 was pulled, cursor still 0. -/
def cexFresh0 : ParquetDataSet Nat := ⟨"vec.parquet", "emb", some (), 0, 1, [0, 1], 0, 2⟩

/-- Fresh reader after read(1): batch 1 leftover, window [0,2), cursor 1. -/
def cexFresh1 : ParquetDataSet Nat := ⟨"vec.parquet", "emb", some (), 1, 1, [0, 1], 0, 2⟩

/-- cexFresh1 after seek(3): cursor 3 is past the held window [0,2). -/
def cexStuck : ParquetDataSet Nat := ⟨"vec.parquet", "emb", some (), 3, 1, [0, 1], 0, 2⟩

/-- Bytes of the 2-point 2-dimension fbin file of the decode test: header
(2, 2), then the little-endian IEEE-754 binary32 encodings of 1.0, 2.0,
3.0, 4.0. -/
def c1bytes : List Byte :=
  [2, 0, 0, 0, 2, 0, 0, 0,
   0, 0, 0x80, 0x3F, 0, 0, 0, 0x40, 0, 0, 0x40, 0x40, 0, 0, 0x80, 0x40]

/-- Flat reader handle over that file. -/
def c1reader : BigANNVectorDataSet := BigANNVectorDataSet.init "vectors.fbin"

/-- A loaded hierarchical reader mid-file (cursor 2, data cached). -/
def c6hdf5 : HDF5DataSet Nat := ⟨"data.hdf5", "train", 2, some [10, 20, 30]⟩

/-! ## Theorems -/

/-! ### Slice and extension helper lemmas -/

theorem pyIdx_of_nonneg {n : Nat} {i : Int} (h : 0 ≤ i) :
    pyIdx n i = min i.toNat n := by
  unfold pyIdx
  rw [if_neg (by omega)]

theorem pySlice_eq {α : Type} (l : List α) {a b : Int} (ha : 0 ≤ a)
    (hab : a ≤ b) (hb : b ≤ l.length) :
    pySlice l a b = (l.take b.toNat).drop a.toNat := by
  unfold pySlice
  rw [pyIdx_of_nonneg (show (0 : Int) ≤ b by omega), pyIdx_of_nonneg ha]
  have h1 : min b.toNat l.length = b.toNat := by omega
  have h2 : min a.toNat l.length = a.toNat := by omega
  rw [h1, h2]

theorem length_pySlice {α : Type} (l : List α) {a b : Int} (ha : 0 ≤ a)
    (hab : a ≤ b) (hb : b ≤ l.length) :
    (pySlice l a b).length = (b - a).toNat := by
  rw [pySlice_eq l ha hab hb, List.length_drop, List.length_take]
  omega

theorem pySlice_of_le {α : Type} (l : List α) {a b : Int} (h0 : 0 ≤ b)
    (h : b ≤ a) : pySlice l a b = [] := by
  unfold pySlice
  apply List.drop_eq_nil_of_le
  rw [List.length_take]
  rw [pyIdx_of_nonneg h0, pyIdx_of_nonneg (by omega)]
  omega

theorem pySliceFrom_eq {α : Type} (l : List α) {a : Int} (ha : 0 ≤ a) :
    pySliceFrom l a = l.drop a.toNat := by
  unfold pySliceFrom
  rw [pyIdx_of_nonneg ha]
  by_cases hle : a.toNat ≤ l.length
  · rw [min_eq_left hle]
  · have h1 : min a.toNat l.length = l.length := by omega
    rw [h1, List.drop_length]
    exact (List.drop_eq_nil_of_le (by omega)).symm

theorem except_ok_bind {ε α β : Type} (a : α) (f : α → Except ε β) :
    (do let x ← (Except.ok a : Except ε α); f x) = f a := rfl

theorem except_error_bind {ε α β : Type} (e : ε) (f : α → Except ε β) :
    (do let x ← (Except.error e : Except ε α); f x) = .error e := rfl

theorem get_data_size_of_supported {path : String}
    (h : extOf path = "fbin" ∨ extOf path = "u8bin") :
    BigANNVectorDataSet.get_data_size path = .ok (bpnOf (extOf path)) := by
  rcases h with h | h <;>
    simp only [BigANNVectorDataSet.get_data_size,
      BigANNVectorDataSet.get_extension, bpnOf, h] <;> rfl

theorem get_data_size_of_unsupported {path : String}
    (h : ¬(extOf path = "fbin" ∨ extOf path = "u8bin")) :
    BigANNVectorDataSet.get_data_size path = .error .formatError := by
  simp only [BigANNVectorDataSet.get_data_size,
    BigANNVectorDataSet.get_extension, if_neg h]
  rfl

theorem bpnOf_eq_of_get_data_size {path : String} {b : Nat}
    (h : BigANNVectorDataSet.get_data_size path = .ok b) :
    bpnOf (extOf path) = b ∧ (extOf path = "fbin" ∨ extOf path = "u8bin") := by
  by_cases hs : extOf path = "fbin" ∨ extOf path = "u8bin"
  · rw [get_data_size_of_supported hs] at h
    exact ⟨(Except.ok.injEq .. ▸ congrArg id h).symm ▸ rfl, hs⟩
  · rw [get_data_size_of_unsupported hs] at h
    exact absurd h (by simp)

/-- Computation of _init_internal_params on a freshly constructed handle:
success exactly under the three header conditions, a format error
otherwise, and the successful state carries the parsed header. -/
theorem init_internal_params_init (path : String) (bytes : List Byte) :
    BigANNVectorDataSet.init_internal_params (some bytes)
        (BigANNVectorDataSet.init path)
      = if 8 ≤ bytes.length ∧ (extOf path = "fbin" ∨ extOf path = "u8bin") ∧
           bytes.length - 8
             = leNat (bytes.take 4) * leNat ((bytes.drop 4).take 4) *
               bpnOf (extOf path)
        then .ok ⟨path, some 8, 0, leNat (bytes.take 4),
                  leNat ((bytes.drop 4).take 4), bpnOf (extOf path)⟩
        else .error .formatError := by
  simp only [BigANNVectorDataSet.init_internal_params, BigANNVectorDataSet.init]
  by_cases h8 : bytes.length < 8
  · rw [if_pos h8, if_neg (by omega)]
  · rw [if_neg h8]
    by_cases hext : extOf path = "fbin" ∨ extOf path = "u8bin"
    · rw [get_data_size_of_supported hext]
      simp only [except_ok_bind]
      by_cases hsz : bytes.length - 8
          = leNat (bytes.take 4) * leNat ((bytes.drop 4).take 4) *
            bpnOf (extOf path)
      · rw [if_neg (by omega), if_pos ⟨by omega, hext, hsz⟩]
      · rw [if_pos (by omega), if_neg (by tauto)]
    · rw [get_data_size_of_unsupported hext]
      simp only [except_error_bind]
      rw [if_neg (by tauto)]

/-- C7: the first access of a flat (bigann) reader fails exactly when the
file is shorter than the 8-byte header, or the extension is neither fbin nor
u8bin, or the byte length minus 8 differs from
pointCount * dimension * bytesPerValue (1 for u8bin, 4 for fbin); any of
these failures is a format error.  On success the state carries the parsed
header fields, and read, seek and reset on a loaded handle never change
them. -/
theorem c7_flat_init_validation :
    (∀ (path : String) (bytes : List Byte),
      (∃ r, BigANNVectorDataSet.size (some bytes)
              (BigANNVectorDataSet.init path) = .ok r)
        ↔ 8 ≤ bytes.length ∧ (extOf path = "fbin" ∨ extOf path = "u8bin") ∧
          bytes.length - 8
            = leNat (bytes.take 4) * leNat ((bytes.drop 4).take 4) *
              bpnOf (extOf path))
  ∧ (∀ (path : String) (bytes : List Byte),
      ¬(8 ≤ bytes.length ∧ (extOf path = "fbin" ∨ extOf path = "u8bin") ∧
          bytes.length - 8
            = leNat (bytes.take 4) * leNat ((bytes.drop 4).take 4) *
              bpnOf (extOf path)) →
      BigANNVectorDataSet.size (some bytes) (BigANNVectorDataSet.init path)
        = .error .formatError)
  ∧ (∀ (path : String) (bytes : List Byte) (st : BigANNVectorDataSet),
      BigANNVectorDataSet.init_internal_params (some bytes)
          (BigANNVectorDataSet.init path) = .ok st →
      st.num_points = leNat (bytes.take 4) ∧
      st.dimension = leNat ((bytes.drop 4).take 4) ∧
      st.bytes_per_num = bpnOf (extOf path) ∧ st.file = some 8 ∧
      st.dataset_path = path)
  ∧ (∀ (content : Option (List Byte)) (chunk : Int) (path : String) (p : Nat)
       (cur : Int) (n d b : Nat),
      bmeta (BigANNVectorDataSet.read content chunk
               ⟨path, some p, cur, n, d, b⟩).1 = (n, d, b))
  ∧ (∀ (content : Option (List Byte)) (off : Int) (path : String) (p : Nat)
       (cur : Int) (n d b : Nat),
      bmeta (BigANNVectorDataSet.seek content off
               ⟨path, some p, cur, n, d, b⟩).1 = (n, d, b))
  ∧ (∀ st : BigANNVectorDataSet,
      bmeta (BigANNVectorDataSet.reset st) = bmeta st) := by
  refine ⟨fun path bytes => ?_, fun path bytes h => ?_, fun path bytes st h => ?_,
          fun content chunk path p cur n d b => ?_,
          fun content off path p cur n d b => ?_, fun st => rfl⟩
  · unfold BigANNVectorDataSet.size BigANNVectorDataSet.load
    rw [show (BigANNVectorDataSet.init path).file.isNone = true from rfl,
        if_pos rfl, init_internal_params_init]
    constructor
    · rintro ⟨r, hr⟩
      by_contra hc
      rw [if_neg hc] at hr
      exact absurd hr (by simp [Except.map])
    · intro hc
      rw [if_pos hc]
      exact ⟨_, rfl⟩
  · unfold BigANNVectorDataSet.size BigANNVectorDataSet.load
    rw [show (BigANNVectorDataSet.init path).file.isNone = true from rfl,
        if_pos rfl, init_internal_params_init, if_neg h]
    rfl
  · rw [init_internal_params_init] at h
    by_cases hc : 8 ≤ bytes.length ∧ (extOf path = "fbin" ∨ extOf path = "u8bin") ∧
        bytes.length - 8
          = leNat (bytes.take 4) * leNat ((bytes.drop 4).take 4) *
            bpnOf (extOf path)
    · rw [if_pos hc] at h
      cases h
      exact ⟨rfl, rfl, rfl, rfl, rfl⟩
    · rw [if_neg hc] at h
      exact absurd h (by simp)
  · unfold BigANNVectorDataSet.read BigANNVectorDataSet.load
    rw [show (Option.isNone (some p)) = false from rfl]
    simp only [Bool.false_eq_true, if_false]
    split
    · rfl
    · split
      · rfl
      · rfl
  · unfold BigANNVectorDataSet.seek BigANNVectorDataSet.load
    rw [show (Option.isNone (some p)) = false from rfl]
    simp only [Bool.false_eq_true, if_false]
    split
    · rfl
    · split
      · rfl
      · rfl

/-- C7 (witness): the valid 2x2 fbin file of c1bytes opens successfully and
its parsed header is retained. -/
theorem c7_flat_init_validation_witness :
    (∃ r, BigANNVectorDataSet.size (some c1bytes)
            (BigANNVectorDataSet.init "vectors.fbin") = .ok r)
  ∧ ((⟨"vectors.fbin", some 8, 0, 2, 2, 4⟩ : BigANNVectorDataSet).num_points
      = leNat (c1bytes.take 4)) := by
  refine ⟨(c7_flat_init_validation.1 "vectors.fbin" c1bytes).2 (by decide), ?_⟩
  have := (c7_flat_init_validation.2.2.1 "vectors.fbin" c1bytes
            ⟨"vectors.fbin", some 8, 0, 2, 2, 4⟩ (by decide)).1
  exact this.symm ▸ by decide

/-! ### Seek range checking (C8) -/

theorem hdf5_load_data {α : Type} {content : List α} {st : HDF5DataSet α}
    (h : st.data = none ∨ st.data = some content) :
    (HDF5DataSet.load content st).data = some content := by
  rcases h with h | h <;> simp [HDF5DataSet.load, h]

theorem hdf5_load_current {α : Type} (content : List α) (st : HDF5DataSet α) :
    (HDF5DataSet.load content st).current = st.current := by
  unfold HDF5DataSet.load
  split <;> rfl

theorem pq_load_current {α : Type} (st : ParquetDataSet α) :
    (ParquetDataSet.load st).current = st.current := by
  unfold ParquetDataSet.load
  split <;> rfl

theorem bigann_load_of_some {content : Option (List Byte)}
    {st : BigANNVectorDataSet} {p : Nat} (h : st.file = some p) :
    BigANNVectorDataSet.load content st = .ok st := by
  unfold BigANNVectorDataSet.load
  rw [h]
  rfl

/-- C8: for each reader, seek raises a range error exactly when the offset
is negative or at least the size (so on an empty dataset every offset
fails), the cursor is unchanged on failure, and on success the cursor
becomes the offset.  The hierarchical hypothesis ties the cached data to the
file content; the flat hypothesis is a well-formed loaded handle. -/
theorem c8_seek_range_check :
    (∀ (α : Type) (content : List α) (st : HDF5DataSet α) (off : Int),
      st.data = none ∨ st.data = some content →
      ((off < 0 ∨ (content.length : Int) ≤ off) →
        (HDF5DataSet.seek content off st).2 = some .rangeError ∧
        (HDF5DataSet.seek content off st).1.current = st.current) ∧
      (0 ≤ off → off < content.length →
        (HDF5DataSet.seek content off st).2 = none ∧
        (HDF5DataSet.seek content off st).1.current = off))
  ∧ (∀ (α : Type) (nrows : Nat) (st : ParquetDataSet α) (off : Int),
      ((off < 0 ∨ (nrows : Int) ≤ off) →
        (ParquetDataSet.seek nrows off st).2 = some .rangeError ∧
        (ParquetDataSet.seek nrows off st).1.current = st.current) ∧
      (0 ≤ off → off < nrows →
        (ParquetDataSet.seek nrows off st).2 = none ∧
        (ParquetDataSet.seek nrows off st).1.current = off))
  ∧ (∀ (bytes : List Byte) (st : BigANNVectorDataSet) (off : Int),
      bigannWF bytes st →
      ((off < 0 ∨ (st.num_points : Int) ≤ off) →
        (BigANNVectorDataSet.seek (some bytes) off st).2 = some .rangeError ∧
        (BigANNVectorDataSet.seek (some bytes) off st).1.current = st.current) ∧
      (0 ≤ off → off < st.num_points →
        (BigANNVectorDataSet.seek (some bytes) off st).2 = none ∧
        (BigANNVectorDataSet.seek (some bytes) off st).1.current = off)) := by
  refine ⟨fun α content st off hd => ?_, fun α nrows st off => ?_,
          fun bytes st off hWF => ?_⟩
  · have hload := @hdf5_load_data α content st hd
    refine ⟨fun hbad => ?_, fun h0 hlt => ?_⟩ <;>
      simp only [HDF5DataSet.seek] <;> split_ifs with h1 h2
    · exact ⟨rfl, rfl⟩
    · exact ⟨rfl, hdf5_load_current content st⟩
    · rw [hload] at h2
      simp only [Option.getD_some] at h2
      rcases hbad with h | h <;> omega
    · omega
    · rw [hload] at h2
      simp only [Option.getD_some] at h2
      omega
    · exact ⟨rfl, rfl⟩
  · refine ⟨fun hbad => ?_, fun h0 hlt => ?_⟩ <;>
      simp only [ParquetDataSet.seek] <;> split_ifs with h1 h2
    · exact ⟨rfl, rfl⟩
    · exact ⟨rfl, pq_load_current st⟩
    · rcases hbad with h | h <;> omega
    · omega
    · omega
    · exact ⟨rfl, rfl⟩
  · obtain ⟨hc0, hfile, _⟩ := hWF
    refine ⟨fun hbad => ?_, fun h0 hlt => ?_⟩ <;>
      simp only [BigANNVectorDataSet.seek, bigann_load_of_some hfile] <;>
      split_ifs with h1 h2
    · exact ⟨rfl, rfl⟩
    · exact ⟨rfl, rfl⟩
    · rcases hbad with h | h <;> omega
    · omega
    · omega
    · exact ⟨rfl, rfl⟩

/-- C8 (witness): concrete checks: on a 3-row hierarchical dataset seek(1)
succeeds and seek(3) and seek(-1) fail with the cursor kept; on an empty
hierarchical dataset seek(0) fails; on a 4-row columnar reader and the 2-row
flat file the same bounds apply. -/
theorem c8_seek_range_check_witness :
    ((HDF5DataSet.seek [10, 20, 30] 1 ⟨"data.hdf5", "train", 0, none⟩).2 = none ∧
     (HDF5DataSet.seek [10, 20, 30] 1 ⟨"data.hdf5", "train", 0, none⟩).1.current = 1)
  ∧ ((HDF5DataSet.seek [10, 20, 30] 3 ⟨"data.hdf5", "train", 0, none⟩).2
       = some .rangeError ∧
     (HDF5DataSet.seek [10, 20, 30] 3 ⟨"data.hdf5", "train", 0, none⟩).1.current = 0)
  ∧ ((HDF5DataSet.seek ([] : List Nat) 0 ⟨"data.hdf5", "train", 0, none⟩).2
       = some .rangeError)
  ∧ ((ParquetDataSet.seek 4 (-1) cexFresh).2 = some .rangeError ∧
     (ParquetDataSet.seek 4 (-1) cexFresh).1.current = 0)
  ∧ ((BigANNVectorDataSet.seek (some c1bytes) 2
        ⟨"vectors.fbin", some 8, 0, 2, 2, 4⟩).2 = some .rangeError)
  ∧ ((BigANNVectorDataSet.seek (some c1bytes) 1
        ⟨"vectors.fbin", some 8, 0, 2, 2, 4⟩).2 = none) := by
  have h1 := c8_seek_range_check.1 Nat [10, 20, 30]
    ⟨"data.hdf5", "train", 0, none⟩
  have h2 := c8_seek_range_check.1 Nat ([] : List Nat)
    ⟨"data.hdf5", "train", 0, none⟩
  have h3 := c8_seek_range_check.2.1 Nat 4 cexFresh (-1)
  have h4 := c8_seek_range_check.2.2 c1bytes
    ⟨"vectors.fbin", some 8, 0, 2, 2, 4⟩
  exact ⟨(h1 1 (by decide)).2 (by decide) (by decide),
         (h1 3 (by decide)).1 (by decide),
         ((h2 0 (by decide)).1 (by decide)).1,
         (h3.1 (by decide)),
         ((h4 2 (by decide)).1 (by decide)).1,
         ((h4 1 (by decide)).2 (by decide) (by decide)).1⟩

/-! ### Batch-arithmetic lemmas for the columnar reader -/

theorem sumLen_append {α : Type} (l1 l2 : List (List α)) :
    sumLen (l1 ++ l2) = sumLen l1 + sumLen l2 := by
  unfold sumLen
  rw [List.map_append, List.sum_append]

theorem sumLenTake_succ {α : Type} {bs : List (List α)} {k : Nat} {b : List α}
    (h : bs[k]? = some b) :
    sumLenTake bs (k + 1) = sumLenTake bs k + b.length := by
  unfold sumLenTake sumLen
  rw [List.take_succ, h]
  simp

theorem sumLenTake_full {α : Type} (bs : List (List α)) :
    sumLenTake bs bs.length = sumLen bs := by
  unfold sumLenTake
  rw [List.take_length]

theorem sumLenTake_le {α : Type} (bs : List (List α)) (k : Nat) :
    sumLenTake bs k ≤ sumLen bs := by
  have h : sumLen bs = sumLenTake bs k + sumLen (bs.drop k) := by
    unfold sumLenTake
    rw [← sumLen_append, List.take_append_drop]
  omega

theorem length_flatten_sumLen {α : Type} (bs : List (List α)) :
    bs.flatten.length = sumLen bs := by
  unfold sumLen
  rw [List.length_flatten]

theorem rowsIn_batch {α : Type} {bs : List (List α)} {k : Nat} {b : List α}
    (h : bs[k]? = some b) (u v : Nat) (huv : u ≤ v) (hv : v ≤ b.length) :
    rowsIn bs (sumLenTake bs k + u) (sumLenTake bs k + v)
      = (b.take v).drop u := by
  have hk : k < bs.length := by
    by_contra hcon
    rw [List.getElem?_eq_none (by omega)] at h
    exact absurd h (by simp)
  have hbk : bs[k] = b := by
    have h2 := List.getElem?_eq_getElem hk
    rw [h] at h2
    exact Option.some.inj h2.symm
  have hdec : bs.flatten
      = (bs.take k).flatten ++ (b ++ (bs.drop (k + 1)).flatten) := by
    conv_lhs => rw [← List.take_append_drop k bs]
    rw [List.flatten_append, List.drop_eq_getElem_cons hk, hbk,
        List.flatten_cons]
  have hlenA : (bs.take k).flatten.length = sumLenTake bs k := by
    rw [length_flatten_sumLen]
    rfl
  unfold rowsIn
  rw [hdec, List.take_append_eq_append_take, hlenA,
      List.take_of_length_le (by omega : (bs.take k).flatten.length ≤ _),
      List.drop_append_eq_append_drop,
      List.drop_eq_nil_of_le (by rw [hlenA]; omega), hlenA]
  rw [show sumLenTake bs k + v - sumLenTake bs k = v from by omega,
      show sumLenTake bs k + u - sumLenTake bs k = u from by omega,
      List.take_append_eq_append_take,
      show v - b.length = 0 from by omega]
  simp

theorem rowsIn_append {α : Type} (bs : List (List α)) {a m b : Nat}
    (ham : a ≤ m) (hmb : m ≤ b) :
    rowsIn bs a m ++ rowsIn bs m b = rowsIn bs a b := by
  unfold rowsIn
  rw [List.drop_take, List.drop_take, List.drop_take]
  have h1 : bs.flatten.drop m = (bs.flatten.drop a).drop (m - a) := by
    rw [List.drop_drop]
    congr 1
    omega
  rw [h1, ← List.take_add]
  congr 1
  omega

theorem length_rowsIn {α : Type} (bs : List (List α)) {a b : Nat}
    (hab : a ≤ b) (hb : b ≤ sumLen bs) :
    (rowsIn bs a b).length = b - a := by
  unfold rowsIn
  rw [List.length_drop, List.length_take, length_flatten_sumLen]
  omega

theorem rowsIn_drop_take {α : Type} (bs : List (List α)) (a b : Nat) :
    rowsIn bs a b = (bs.flatten.drop a).take (b - a) := by
  unfold rowsIn
  rw [List.drop_take]

theorem get_batch_prev {α : Type} {bs : List (List α)} {st : ParquetDataSet α}
    (h : st.prev_batch ≠ []) :
    ParquetDataSet.get_batch bs st = .ok (st.prev_batch, st) := by
  unfold ParquetDataSet.get_batch
  rw [if_pos (by simpa using h)]

theorem get_batch_pull {α : Type} {bs : List (List α)} {st : ParquetDataSet α}
    {b : List α} (hp : st.prev_batch = []) (hb : bs[st.it]? = some b) :
    ParquetDataSet.get_batch bs st
      = .ok (b, { st with it := st.it + 1,
                          file_batch_start := st.file_batch_end,
                          file_batch_end := st.file_batch_end + b.length }) := by
  unfold ParquetDataSet.get_batch
  rw [if_neg (by simp [hp]), hb]

theorem pq_load_of_some {α : Type} {st : ParquetDataSet α}
    (h : st.file = some ()) : ParquetDataSet.load st = st := by
  unfold ParquetDataSet.load
  rw [h]
  rfl

/-- C1: on the 2x2 fbin file holding 1.0, 2.0, 3.0, 4.0, read(2) does
decode the four little-endian binary32 values in order, but each component
comes back as the unextracted 1-tuple that struct.unpack returns (the u8bin
branch converts to a scalar float, the fbin branch forgets the [0]), so the
returned batch is [[(1.0,),(2.0,)],[(3.0,),(4.0,)]] (numpy shape (2,2,1)),
not the batch of scalars [[1.0,2.0],[3.0,4.0]] the claim states. -/
theorem c1_fbin_read_returns_tuples :
    (BigANNVectorDataSet.read (some c1bytes) 2 c1reader).2
      = .ok (some [[.tuple1 (.finite 1), .tuple1 (.finite 2)],
                   [.tuple1 (.finite 3), .tuple1 (.finite 4)]])
  ∧ [[PyVal.tuple1 (PyFloat.finite 1), PyVal.tuple1 (PyFloat.finite 2)],
     [PyVal.tuple1 (PyFloat.finite 3), PyVal.tuple1 (PyFloat.finite 4)]]
    ≠ [[PyVal.scalar (PyFloat.finite 1), PyVal.scalar (PyFloat.finite 2)],
       [PyVal.scalar (PyFloat.finite 3), PyVal.scalar (PyFloat.finite 4)]] :=
  ⟨by decide, by decide⟩

/-! ### Flat reader decode lemmas -/

theorem readValue_u8 (bytes : List Byte) (pos : Nat)
    (h : pos + 1 ≤ bytes.length) :
    BigANNVectorDataSet.readValue "u8bin" bytes pos
      = .ok (valAt "u8bin" bytes pos, pos + 1) := by
  show Except.ok
      (PyVal.scalar (.finite (leNat (pySlice bytes (pos : Int) ((pos : Int) + 1)))),
       min (pos + 1) bytes.length) = _
  rw [min_eq_left h]
  rfl

theorem readValue_f32 (ext : String) (bytes : List Byte) (pos : Nat)
    (hne : ext ≠ "u8bin") (h : pos + 4 ≤ bytes.length) :
    BigANNVectorDataSet.readValue ext bytes pos
      = .ok (valAt ext bytes pos, pos + 4) := by
  have hlen : (pySlice bytes (pos : Int) ((pos : Int) + 4)).length = 4 := by
    rw [length_pySlice bytes (by omega) (by omega) (by omega)]
    omega
  simp only [BigANNVectorDataSet.readValue, valAt, if_neg hne]
  rw [if_pos hlen]

theorem readValue_ok (ext : String) (bytes : List Byte) (pos : Nat)
    (h : pos + bpnOf ext ≤ bytes.length) :
    BigANNVectorDataSet.readValue ext bytes pos
      = .ok (valAt ext bytes pos, pos + bpnOf ext) := by
  by_cases he : ext = "u8bin"
  · subst he
    exact readValue_u8 bytes pos h
  · have hb : bpnOf ext = 4 := by unfold bpnOf; rw [if_neg he]
    rw [hb] at h ⊢
    exact readValue_f32 ext bytes pos he h

theorem rowAt_succ (ext : String) (bytes : List Byte) (d bpn pos : Nat) :
    rowAt ext bytes (d + 1) bpn pos
      = valAt ext bytes pos :: rowAt ext bytes d bpn (pos + bpn) := by
  unfold rowAt
  rw [List.range_succ_eq_map]
  simp only [List.map_cons, List.map_map]
  congr 1
  · rw [Nat.zero_mul, Nat.add_zero]
  · apply List.map_congr_left
    intro i _
    simp only [Function.comp_apply]
    congr 1
    rw [Nat.succ_mul]
    ring

theorem rowsFromPos_succ (ext : String) (bytes : List Byte) (d bpn k pos : Nat) :
    rowsFromPos ext bytes d bpn (k + 1) pos
      = rowAt ext bytes d bpn pos
          :: rowsFromPos ext bytes d bpn k (pos + d * bpn) := by
  unfold rowsFromPos
  rw [List.range_succ_eq_map]
  simp only [List.map_cons, List.map_map]
  congr 1
  · rw [Nat.zero_mul, Nat.add_zero]
  · apply List.map_congr_left
    intro i _
    simp only [Function.comp_apply]
    congr 1
    rw [Nat.succ_mul]
    ring

theorem length_rowsFromPos (ext : String) (bytes : List Byte)
    (d bpn k pos : Nat) : (rowsFromPos ext bytes d bpn k pos).length = k := by
  unfold rowsFromPos
  rw [List.length_map, List.length_range]

theorem rowsFromPos_one (ext : String) (bytes : List Byte) (d bpn pos : Nat) :
    rowsFromPos ext bytes d bpn 1 pos = [rowAt ext bytes d bpn pos] := by
  rw [show (1 : Nat) = 0 + 1 from rfl, rowsFromPos_succ]
  simp [rowsFromPos]

theorem readVec_ok (ext : String) (bytes : List Byte) :
    ∀ (d pos : Nat), pos + d * bpnOf ext ≤ bytes.length →
    BigANNVectorDataSet.readVec ext bytes d pos
      = .ok (rowAt ext bytes d (bpnOf ext) pos, pos + d * bpnOf ext) := by
  intro d
  induction d with
  | zero =>
    intro pos h
    simp [BigANNVectorDataSet.readVec, rowAt]
  | succ d ih =>
    intro pos h
    rw [Nat.succ_mul] at h
    have h1 : pos + bpnOf ext ≤ bytes.length := by omega
    have h2 : pos + bpnOf ext + d * bpnOf ext ≤ bytes.length := by omega
    have h3 : pos + bpnOf ext + d * bpnOf ext = pos + (d + 1) * bpnOf ext := by
      rw [Nat.succ_mul]
      omega
    simp only [BigANNVectorDataSet.readVec, readValue_ok ext bytes pos h1,
      except_ok_bind, ih (pos + bpnOf ext) h2, rowAt_succ, h3]
    rfl

theorem readVecs_ok (ext : String) (bytes : List Byte) (d : Nat) :
    ∀ (k pos : Nat), pos + k * (d * bpnOf ext) ≤ bytes.length →
    BigANNVectorDataSet.readVecs ext bytes d k pos
      = .ok (rowsFromPos ext bytes d (bpnOf ext) k pos,
             pos + k * (d * bpnOf ext)) := by
  intro k
  induction k with
  | zero =>
    intro pos h
    simp [BigANNVectorDataSet.readVecs, rowsFromPos]
  | succ k ih =>
    intro pos h
    rw [Nat.succ_mul] at h
    have h1 : pos + d * bpnOf ext ≤ bytes.length := by omega
    have h2 : pos + d * bpnOf ext + k * (d * bpnOf ext) ≤ bytes.length := by
      omega
    have h3 : pos + d * bpnOf ext + k * (d * bpnOf ext)
        = pos + (k + 1) * (d * bpnOf ext) := by
      rw [Nat.succ_mul]
      omega
    simp only [BigANNVectorDataSet.readVecs, readVec_ok ext bytes d pos h1,
      except_ok_bind, ih (pos + d * bpnOf ext) h2, rowsFromPos_succ, h3]
    rfl

theorem pos_advance {d b : Nat} {cur e : Int} (h0 : 0 ≤ cur) (hle : cur ≤ e) :
    8 + d * b * cur.toNat + (e - cur).toNat * (d * b) = 8 + d * b * e.toNat := by
  have h : cur.toNat + (e - cur).toNat = e.toNat := by omega
  calc 8 + d * b * cur.toNat + (e - cur).toNat * (d * b)
      = 8 + (cur.toNat + (e - cur).toNat) * (d * b) := by ring
    _ = 8 + e.toNat * (d * b) := by rw [h]
    _ = 8 + d * b * e.toNat := by ring

/-- Reading from a well-formed loaded flat handle whose cursor is strictly
below the point count decodes exactly min(chunk_size, size - cursor)
consecutive vectors from the cursor's byte position, advancing the cursor
and the stream together. -/
theorem bigannRead_ok (bytes : List Byte) (st : BigANNVectorDataSet)
    (chunk : Int) (hWF : bigannWF bytes st)
    (hlt : st.current < (st.num_points : Int)) (hc : 0 ≤ chunk) :
    BigANNVectorDataSet.read (some bytes) chunk st
      = ({ st with
             current := min (st.current + chunk) (st.num_points : Int),
             file := some (8 + st.dimension * st.bytes_per_num *
               (min (st.current + chunk) (st.num_points : Int)).toNat) },
         .ok (some (rowsFromPos (extOf st.dataset_path) bytes st.dimension
                st.bytes_per_num
                ((min (st.current + chunk) (st.num_points : Int))
                  - st.current).toNat
                (8 + st.dimension * st.bytes_per_num * st.current.toNat)))) := by
  obtain ⟨hc0, hfile, hgds, h8, hn, hd, hsz⟩ := hWF
  obtain ⟨hbpn, hsupp⟩ := bpnOf_eq_of_get_data_size hgds
  have hend : (if st.current + chunk > (st.num_points : Int) then
      (st.num_points : Int) else st.current + chunk)
      = min (st.current + chunk) (st.num_points : Int) := by
    split_ifs with h <;> omega
  have hlen : bytes.length
      = 8 + st.num_points * (st.dimension * st.bytes_per_num) := by
    have hassoc : st.num_points * st.dimension * st.bytes_per_num
        = st.num_points * (st.dimension * st.bytes_per_num) := by ring
    omega
  have hcur_le : st.current
      ≤ min (st.current + chunk) (st.num_points : Int) := by omega
  have hbound : 8 + st.dimension * st.bytes_per_num * st.current.toNat
      + ((min (st.current + chunk) (st.num_points : Int)) - st.current).toNat
        * (st.dimension * bpnOf (extOf st.dataset_path))
      ≤ bytes.length := by
    rw [hbpn, hlen]
    have hmul : (st.current.toNat
        + ((min (st.current + chunk) (st.num_points : Int))
            - st.current).toNat) * (st.dimension * st.bytes_per_num)
        ≤ st.num_points * (st.dimension * st.bytes_per_num) :=
      Nat.mul_le_mul_right _ (by omega)
    calc 8 + st.dimension * st.bytes_per_num * st.current.toNat
        + ((min (st.current + chunk) (st.num_points : Int))
            - st.current).toNat * (st.dimension * st.bytes_per_num)
        = 8 + (st.current.toNat
            + ((min (st.current + chunk) (st.num_points : Int))
                - st.current).toNat) * (st.dimension * st.bytes_per_num) := by
          ring
      _ ≤ 8 + st.num_points * (st.dimension * st.bytes_per_num) := by omega
  simp only [BigANNVectorDataSet.read, bigann_load_of_some hfile]
  rw [if_neg (by omega), hend, hfile]
  simp only [Option.getD_some]
  rw [readVecs_ok (extOf st.dataset_path) bytes st.dimension _ _ hbound]
  rw [hbpn, pos_advance hc0 hcur_le]

/-! ### Reader state computation lemmas -/

theorem hdf5_seek_state {α : Type} (content : List α) (p c : String)
    (cur off : Int) (cache : Option (List α))
    (hc : cache = none ∨ cache = some content)
    (h0 : 0 ≤ off) (hlt : off < (content.length : Int)) :
    HDF5DataSet.seek content off ⟨p, c, cur, cache⟩
      = (⟨p, c, off, some content⟩, none) := by
  rcases hc with h | h <;> subst h <;>
    simp only [HDF5DataSet.seek, HDF5DataSet.load, Option.isNone_none,
      Option.isNone_some, Option.getD_some, if_true, Bool.false_eq_true,
      if_false] <;>
    rw [if_neg (by omega), if_neg (by omega)]

theorem hdf5_read_state {α : Type} (content : List α) (p c : String)
    (k : Int) (cur : Int) (cache : Option (List α))
    (hc : cache = none ∨ cache = some content)
    (h0 : 0 ≤ cur) (hlt : cur < (content.length : Int)) (hk : 0 ≤ k) :
    HDF5DataSet.read content k ⟨p, c, cur, cache⟩
      = (⟨p, c, min (cur + k) (content.length : Int), some content⟩,
         .ok (some ((content.drop cur.toNat).take
                ((min (cur + k) (content.length : Int)) - cur).toNat))) := by
  have hmin : (if cur + k > (content.length : Int) then (content.length : Int)
      else cur + k) = min (cur + k) (content.length : Int) := by
    split_ifs with h <;> omega
  have hslice : pySlice content cur (min (cur + k) (content.length : Int))
      = (content.drop cur.toNat).take
          ((min (cur + k) (content.length : Int)) - cur).toNat := by
    rw [pySlice_eq content h0 (by omega) (by omega), List.drop_take]
    congr 1
    omega
  rcases hc with h | h <;> subst h <;>
    simp only [HDF5DataSet.read, HDF5DataSet.load, Option.isNone_none,
      Option.isNone_some, Option.getD_some, if_true, Bool.false_eq_true,
      if_false] <;>
    rw [if_neg (by omega), hmin, hslice]

theorem bigann_seek_state (bytes : List Byte) (st : BigANNVectorDataSet)
    (off : Int) (hWF : bigannWF bytes st) (h0 : 0 ≤ off)
    (hlt : off < (st.num_points : Int)) :
    BigANNVectorDataSet.seek (some bytes) off st
      = ({ st with
             file := some (8 + st.dimension * st.bytes_per_num * off.toNat),
             current := off }, none) := by
  obtain ⟨_, hfile, _⟩ := hWF
  simp only [BigANNVectorDataSet.seek, bigann_load_of_some hfile]
  rw [if_neg (by omega), if_neg (by omega)]

theorem bigann_fresh_load (path : String) (bytes : List Byte)
    (hcond : 8 ≤ bytes.length ∧ (extOf path = "fbin" ∨ extOf path = "u8bin") ∧
      bytes.length - 8 = leNat (bytes.take 4) * leNat ((bytes.drop 4).take 4) *
        bpnOf (extOf path)) :
    BigANNVectorDataSet.load (some bytes) (BigANNVectorDataSet.init path)
      = .ok ⟨path, some 8, 0, leNat (bytes.take 4),
             leNat ((bytes.drop 4).take 4), bpnOf (extOf path)⟩ := by
  have h1 : BigANNVectorDataSet.load (some bytes) (BigANNVectorDataSet.init path)
      = BigANNVectorDataSet.init_internal_params (some bytes)
          (BigANNVectorDataSet.init path) := rfl
  rw [h1, init_internal_params_init, if_pos hcond]

theorem bigann_read_fresh (path : String) (bytes : List Byte) (chunk : Int)
    (hcond : 8 ≤ bytes.length ∧ (extOf path = "fbin" ∨ extOf path = "u8bin") ∧
      bytes.length - 8 = leNat (bytes.take 4) * leNat ((bytes.drop 4).take 4) *
        bpnOf (extOf path)) :
    BigANNVectorDataSet.read (some bytes) chunk (BigANNVectorDataSet.init path)
      = BigANNVectorDataSet.read (some bytes) chunk
          ⟨path, some 8, 0, leNat (bytes.take 4),
           leNat ((bytes.drop 4).take 4), bpnOf (extOf path)⟩ := by
  have h2 : BigANNVectorDataSet.load (some bytes)
      (⟨path, some 8, 0, leNat (bytes.take 4), leNat ((bytes.drop 4).take 4),
        bpnOf (extOf path)⟩ : BigANNVectorDataSet)
      = .ok ⟨path, some 8, 0, leNat (bytes.take 4),
             leNat ((bytes.drop 4).take 4), bpnOf (extOf path)⟩ :=
    bigann_load_of_some rfl
  simp only [BigANNVectorDataSet.read, bigann_fresh_load path bytes hcond, h2]

/-- C3 (amended): for the hierarchical and flat readers, seek(offset)
followed by read(1) returns exactly what a fresh reader returns after
discarding its first offset vectors, at every valid offset and from any
prior state (backward seeks included).  For the columnar reader the claim
fails: seek moves only the logical cursor and not the batch window, so a
backward seek behind the current window reads the wrong rows (see the
counterexample). -/
theorem c3_seek_then_read_amended :
    (∀ (α : Type) (content : List α) (path ctx : String) (cur : Int)
       (cache : Option (List α)) (off : Int),
      cache = none ∨ cache = some content → 0 ≤ off →
      off < (content.length : Int) →
      (HDF5DataSet.read content 1
         (HDF5DataSet.seek content off ⟨path, ctx, cur, cache⟩).1).2
        = (HDF5DataSet.read content 1
            (HDF5DataSet.read content off ⟨path, ctx, 0, none⟩).1).2
      ∧ (HDF5DataSet.read content 1
          (HDF5DataSet.seek content off ⟨path, ctx, cur, cache⟩).1).2
        = .ok (some ((content.drop off.toNat).take 1)))
  ∧ (∀ (bytes : List Byte) (st : BigANNVectorDataSet) (off : Int),
      bigannWF bytes st → 0 ≤ off → off < (st.num_points : Int) →
      (BigANNVectorDataSet.read (some bytes) 1
         (BigANNVectorDataSet.seek (some bytes) off st).1).2
        = (BigANNVectorDataSet.read (some bytes) 1
            (BigANNVectorDataSet.read (some bytes) off
              (BigANNVectorDataSet.init st.dataset_path)).1).2
      ∧ (BigANNVectorDataSet.read (some bytes) 1
          (BigANNVectorDataSet.seek (some bytes) off st).1).2
        = .ok (some [rowAt (extOf st.dataset_path) bytes st.dimension
                 st.bytes_per_num
                 (8 + st.dimension * st.bytes_per_num * off.toNat)])) := by
  constructor
  · intro α content path ctx cur cache off hcache h0 hlt
    have hs := hdf5_seek_state content path ctx cur off cache hcache h0 hlt
    have hbase := hdf5_read_state content path ctx off 0 none (Or.inl rfl)
      (by omega) (by omega) h0
    have hmoff : min ((0 : Int) + off) (content.length : Int) = off := by omega
    rw [hmoff] at hbase
    have h2 := hdf5_read_state content path ctx 1 off (some content)
      (Or.inr rfl) h0 hlt (by omega)
    have hm1 : min (off + 1) (content.length : Int) = off + 1 := by omega
    rw [hm1] at h2
    rw [show ((off : Int) + 1 - off).toNat = 1 from by omega] at h2
    constructor
    · rw [hs, hbase]
    · rw [hs, h2]
  · intro bytes st off hWF h0 hlt
    have hWF' := hWF
    obtain ⟨hc0, hfile, hgds, h8, hn, hd, hsz⟩ := hWF
    obtain ⟨hbpn, hsupp⟩ := bpnOf_eq_of_get_data_size hgds
    have hcond : 8 ≤ bytes.length ∧
        (extOf st.dataset_path = "fbin" ∨ extOf st.dataset_path = "u8bin") ∧
        bytes.length - 8 = leNat (bytes.take 4) * leNat ((bytes.drop 4).take 4)
          * bpnOf (extOf st.dataset_path) := by
      refine ⟨h8, hsupp, ?_⟩
      rw [← hn, ← hd, hbpn]
      exact hsz
    have hseek := bigann_seek_state bytes st off hWF' h0 hlt
    have hWF2 : bigannWF bytes
        { st with file := some (8 + st.dimension * st.bytes_per_num * off.toNat),
                  current := off } :=
      ⟨h0, rfl, hgds, h8, hn, hd, hsz⟩
    have hread2 := bigannRead_ok bytes _ 1 hWF2 hlt (by omega)
    have hm1 : min (off + 1) ((st.num_points : Int)) = off + 1 := by omega
    rw [show ({ st with
          file := some (8 + st.dimension * st.bytes_per_num * off.toNat),
          current := off } : BigANNVectorDataSet).current + 1 = off + 1
        from rfl, hm1] at hread2
    rw [show ((off : Int) + 1 - off).toNat = 1 from by omega] at hread2
    -- the baseline: fresh handle, load, read(off), read(1)
    have hstate : (⟨st.dataset_path, some 8, 0, leNat (bytes.take 4),
        leNat ((bytes.drop 4).take 4), bpnOf (extOf st.dataset_path)⟩ :
          BigANNVectorDataSet)
        = ⟨st.dataset_path, some 8, 0, st.num_points, st.dimension,
           st.bytes_per_num⟩ := by
      rw [← hn, ← hd, hbpn]
    have hWF3 : bigannWF bytes
        ⟨st.dataset_path, some 8, 0, st.num_points, st.dimension,
         st.bytes_per_num⟩ := by
      refine ⟨le_refl 0, by simp, hgds, h8, hn, hd, hsz⟩
    have hread0 := bigannRead_ok bytes
      ⟨st.dataset_path, some 8, 0, st.num_points, st.dimension,
       st.bytes_per_num⟩ off hWF3
      (show (0 : Int) < (st.num_points : Int) by omega) h0
    have hm0 : min ((0 : Int) + off) ((st.num_points : Int)) = off := by omega
    rw [show (⟨st.dataset_path, some 8, 0, st.num_points, st.dimension,
        st.bytes_per_num⟩ : BigANNVectorDataSet).current + off = 0 + off
        from rfl, hm0] at hread0
    constructor
    · rw [hseek, bigann_read_fresh st.dataset_path bytes off hcond, hstate,
          hread0]
    · rw [hseek, hread2, rowsFromPos_one]

/-- C3 (witness): on a concrete 3-row hierarchical dataset and the 2x2 fbin
file, seek(1) then read(1) agrees with fresh-read-and-discard. -/
theorem c3_seek_then_read_amended_witness :
    ((HDF5DataSet.read [10, 20, 30] 1
        (HDF5DataSet.seek [10, 20, 30] 1
          (⟨"data.hdf5", "train", 2, none⟩ : HDF5DataSet Nat)).1).2
      = (HDF5DataSet.read [10, 20, 30] 1
          (HDF5DataSet.read [10, 20, 30] 1
            (⟨"data.hdf5", "train", 0, none⟩ : HDF5DataSet Nat)).1).2)
  ∧ ((BigANNVectorDataSet.read (some c1bytes) 1
        (BigANNVectorDataSet.seek (some c1bytes) 1
          (⟨"vectors.fbin", some 8, 0, 2, 2, 4⟩ : BigANNVectorDataSet)).1).2
      = (BigANNVectorDataSet.read (some c1bytes) 1
          (BigANNVectorDataSet.read (some c1bytes) 1
            (BigANNVectorDataSet.init "vectors.fbin")).1).2) :=
  ⟨(c3_seek_then_read_amended.1 Nat [10, 20, 30] "data.hdf5" "train" 2 none 1
      (Or.inl rfl) (by decide) (by decide)).1,
   (c3_seek_then_read_amended.2 c1bytes ⟨"vectors.fbin", some 8, 0, 2, 2, 4⟩ 1
      (by decide) (by decide) (by decide)).1⟩

/-- C6 (counterexample): resetting a loaded hierarchical reader rewinds the
cursor but leaves the loaded dataset cached (self.data is untouched), so the
next access does not re-open the file; the claim's "invalidates any cached
open-file state" fails for this reader. -/
theorem c6_reset_keeps_cache_counterexample :
    HDF5DataSet.reset c6hdf5 = ⟨"data.hdf5", "train", 0, some [10, 20, 30]⟩
  ∧ (HDF5DataSet.reset c6hdf5).data ≠ none :=
  ⟨by decide, by decide⟩

/-- C6 (amended): reset rewinds the cursor to 0 for every reader, but only
the columnar reader drops the open-file state (so its next access fully
re-initializes); the hierarchical reader keeps its cached dataset and the
flat reader keeps the file open, merely repositioning the stream to byte 8
(just past the header). -/
theorem c6_reset_behavior :
    (∀ (α : Type) (st : HDF5DataSet α),
      (HDF5DataSet.reset st).current = 0 ∧ (HDF5DataSet.reset st).data = st.data)
  ∧ (∀ (α : Type) (st : ParquetDataSet α),
      (ParquetDataSet.reset st).current = 0 ∧
      (ParquetDataSet.reset st).file = none ∧
      ParquetDataSet.load (ParquetDataSet.reset st)
        = ⟨st.dataset_path, st.column, some (), 0, 0, [], 0, 0⟩)
  ∧ (∀ st : BigANNVectorDataSet,
      (BigANNVectorDataSet.reset st).current = 0 ∧
      (BigANNVectorDataSet.reset st).file = st.file.map (fun _ => 8) ∧
      bmeta (BigANNVectorDataSet.reset st) = bmeta st) :=
  ⟨fun _ _ => ⟨rfl, rfl⟩, fun _ _ => ⟨rfl, rfl, rfl⟩, fun _ => ⟨rfl, rfl, rfl⟩⟩

/-- C9 (counterexample): a flat (bigann) reader constructed over an empty
path raises no configuration error at construction (the factory hands the
handle back), and its first access fails with a resource error (the OS open
of the empty path fails), not a ConfigurationError; so "empty path raises a
ConfigurationError at, or before, first use" is false for this reader. -/
theorem c9_empty_path_not_config_error :
    get_data_set Nat "bigann" "" none none
      = .ok (.bigann (BigANNVectorDataSet.init ""))
  ∧ BigANNVectorDataSet.size none (BigANNVectorDataSet.init "")
      = .error .resourceError
  ∧ Err.resourceError ≠ Err.configError :=
  ⟨by decide, by decide, by decide⟩

/-- C9 (amended): an unrecognized format name at the selector, an empty (or
missing) path or column for the columnar reader, and an unrecognized context
for the hierarchical reader each raise a configuration error at or before
first use; an empty path is not validated for the hierarchical or flat
readers (their construction succeeds) and surfaces for the flat reader as a
resource error when the file is first opened. -/
theorem c9_construction_errors_amended :
    get_data_set Nat "csv" "data.csv" none none = .error .configError
  ∧ ParquetDataSet.init Nat "" (some "emb") = .error .configError
  ∧ ParquetDataSet.init Nat "vec.parquet" (some "") = .error .configError
  ∧ ParquetDataSet.init Nat "vec.parquet" none = .error .configError
  ∧ HDF5DataSet.init Nat "data.hdf5" none = .error .configError
  ∧ HDF5DataSet.init Nat "" (some .INDEX) = .ok ⟨"", "train", 0, none⟩
  ∧ get_data_set Nat "bigann" "" none none
      = .ok (.bigann (BigANNVectorDataSet.init ""))
  ∧ BigANNVectorDataSet.size none (BigANNVectorDataSet.init "")
      = .error .resourceError :=
  ⟨by decide, by decide, by decide, by decide, by decide, by decide, by decide,
   by decide⟩

/-- C3 (counterexample): on the columnar reader over batches [[0,1],[2,3]]
(4 rows), reading [0,2) then [2,4) leaves batch 2 as the leftover window
[2,4); seek(0) moves only the logical cursor, so the following read(1)
returns row 2, while a fresh reader that discards 0 vectors and then reads 1
returns row 0 — a backward seek does not reproduce sequential reading. -/
theorem c3_seek_backward_columnar_counterexample :
    ParquetDataSet.read cexBatches 4 2 cexFresh = .ok (some [0, 1]) cexSt1
  ∧ ParquetDataSet.read cexBatches 4 2 cexSt1 = .ok (some [2, 3]) cexSt2
  ∧ ParquetDataSet.seek 4 0 cexSt2 = (cexSt2b, none)
  ∧ pqValue (ParquetDataSet.read cexBatches 4 1 cexSt2b) = some [2]
  ∧ ParquetDataSet.read cexBatches 4 0 cexFresh = .ok (some []) cexFresh0
  ∧ pqValue (ParquetDataSet.read cexBatches 4 1 cexFresh0) = some [0]
  ∧ some [2] ≠ some ([0] : List Nat) :=
  ⟨by decide, by decide, by decide, by decide, by decide, by decide, by decide⟩

/-- C4 (counterexample): in the backward-seek state cexSt2b (cursor 0 with
batch 2 [2,4) still held as leftover), read(3) returns a single vector
(row 2) although min(chunkSize, size - cursor) = min(3, 4) = 3; the cursor
is still advanced to 3.  The exact-count guarantee fails for the columnar
reader once a backward seek has happened. -/
theorem c4_columnar_short_read_counterexample :
    ParquetDataSet.read cexBatches 4 2 cexFresh = .ok (some [0, 1]) cexSt1
  ∧ ParquetDataSet.read cexBatches 4 2 cexSt1 = .ok (some [2, 3]) cexSt2
  ∧ ParquetDataSet.seek 4 0 cexSt2 = (cexSt2b, none)
  ∧ ParquetDataSet.read cexBatches 4 3 cexSt2b
      = .ok (some [2]) ⟨"vec.parquet", "emb", some (), 3, 2, [2, 3], 2, 4⟩
  ∧ ([2] : List Nat).length = 1
  ∧ min 3 (4 - 0) ≠ 1 :=
  ⟨by decide, by decide, by decide, by decide, by decide, by decide⟩

/-- Helper for the C10 counterexample: from the state whose cursor (3) lies
beyond the held leftover window [0,2), the extraction loop re-reads the same
leftover batch and skips it again at every iteration, for every amount of
fuel — the Python loop never terminates there. -/
theorem extractLoop_stuck (fuel : Nat) (acc : List Nat) :
    ParquetDataSet.extractLoop cexBatches fuel cexStuck 3 3 acc = .diverge := by
  induction fuel with
  | zero => rfl
  | succ n ih =>
    show ParquetDataSet.extractLoop cexBatches n cexStuck 3 3 acc = .diverge
    exact ih

/-- C10 (counterexample): the cursor-3 state cexStuck is reached by
read(1) then seek(3) on the 4-row columnar reader, its cursor 3 is strictly
below size 4, yet read(0) does not return an empty batch: the extraction
loop diverges (see extractLoop_stuck), because the skip branch never clears
a leftover batch lying entirely before the requested range. -/
theorem c10_read_zero_diverges_counterexample :
    ParquetDataSet.read cexBatches 4 1 cexFresh = .ok (some [0]) cexFresh1
  ∧ ParquetDataSet.seek 4 3 cexFresh1 = (cexStuck, none)
  ∧ cexStuck.current < 4
  ∧ ParquetDataSet.read cexBatches 4 0 cexStuck = .diverge :=
  ⟨by decide, by decide, by decide, by decide⟩

theorem extractLoop_pull {α : Type} (bs : List (List α))
    (hne : ∀ b ∈ bs, b ≠ []) :
    ∀ (fuel : Nat) (st : ParquetDataSet α) (start end_ : Int) (acc : List α),
    st.prev_batch = [] → st.file = some () → st.it ≤ bs.length →
    st.file_batch_end = (sumLenTake bs st.it : Int) →
    0 ≤ start → start < end_ → st.file_batch_end < end_ →
    end_ ≤ (sumLen bs : Int) → bs.length - st.it < fuel →
    ∃ st2, ParquetDataSet.extractLoop bs fuel st start end_ acc
        = .ok (acc ++ rowsIn bs (max start st.file_batch_end).toNat end_.toNat)
            st2
      ∧ pqInv bs st2 end_ ∧ st.it ≤ st2.it
      ∧ st2.prev_batch ≠ [] ∧ st2.file_batch_start < end_
      ∧ st2.current = st.current ∧ st2.dataset_path = st.dataset_path
      ∧ st2.column = st.column := by
  intro fuel
  induction fuel with
  | zero =>
    intro st _ _ _ _ _ hit _ _ _ _ _ hfuel
    omega
  | succ fuel ih =>
    intro st start end_ acc hprev hfile hit hfbe h0 hse hfe hend hfuel
    have hitlt : st.it < bs.length := by
      by_contra hcon
      have hix : st.it = bs.length := by omega
      rw [hix, sumLenTake_full] at hfbe
      omega
    have hb : bs[st.it]? = some bs[st.it] := List.getElem?_eq_getElem hitlt
    set b := bs[st.it] with hbdef
    have hbne : b ≠ [] := hne b (List.getElem_mem hitlt)
    have hfbe1 : st.file_batch_end + (b.length : Int)
        = (sumLenTake bs (st.it + 1) : Int) := by
      rw [sumLenTake_succ hb]
      push_cast
      omega
    simp only [ParquetDataSet.extractLoop, get_batch_pull hprev hb]
    rw [if_neg (by simpa using hbne)]
    by_cases hskip : start > st.file_batch_end + (b.length : Int)
    · rw [if_pos hskip]
      obtain ⟨st2, heq, hinv, hit2, hpne, hfbs2, hcur, hpath, hcol⟩ :=
        ih { st with it := st.it + 1,
                     file_batch_start := st.file_batch_end,
                     file_batch_end := st.file_batch_end + b.length }
          start end_ acc hprev hfile
          (show st.it + 1 ≤ bs.length from by omega)
          (show st.file_batch_end + (b.length : Int)
            = (sumLenTake bs (st.it + 1) : Int) from hfbe1)
          h0 hse
          (show st.file_batch_end + (b.length : Int) < end_ from by omega)
          hend
          (show bs.length - (st.it + 1) < fuel from by omega)
      rw [show (max start (st.file_batch_end + (b.length : Int))).toNat
          = start.toNat from by omega] at heq
      refine ⟨st2, ?_, hinv, le_trans (Nat.le_succ st.it) hit2, hpne, hfbs2,
        hcur, hpath, hcol⟩
      rw [show (max start st.file_batch_end).toNat = start.toNat from by omega]
      exact heq
    · rw [if_neg hskip]
      have hstart1 : (if start < st.file_batch_end then st.file_batch_end
          else start) = max start st.file_batch_end := by
        split_ifs with h <;> omega
      rw [hstart1]
      have hM0 : 0 ≤ max start st.file_batch_end := by omega
      have hMle : max start st.file_batch_end
          ≤ st.file_batch_end + (b.length : Int) := by omega
      have hcb : (b.length : Int) - (st.file_batch_end + (b.length : Int)
          - max start st.file_batch_end)
          = max start st.file_batch_end - st.file_batch_end := by omega
      by_cases hpart : end_ ≤ st.file_batch_end + (b.length : Int)
      · rw [if_pos hpart]
        have hce : (b.length : Int) - (st.file_batch_end + (b.length : Int)
            - end_) = end_ - st.file_batch_end := by omega
        have hslice : pySlice b
            ((b.length : Int) - (st.file_batch_end + (b.length : Int)
              - max start st.file_batch_end))
            ((b.length : Int) - (st.file_batch_end + (b.length : Int) - end_))
            = rowsIn bs (max start st.file_batch_end).toNat end_.toNat := by
          rw [hcb, hce, pySlice_eq b (by omega) (by omega) (by omega)]
          rw [show (max start st.file_batch_end).toNat
                = sumLenTake bs st.it
                  + (max start st.file_batch_end - st.file_batch_end).toNat
              from by omega,
              show end_.toNat = sumLenTake bs st.it
                + (end_ - st.file_batch_end).toNat from by omega,
              rowsIn_batch hb _ _ (by omega) (by omega)]
        refine ⟨{ st with it := st.it + 1, prev_batch := b,
                          file_batch_start := st.file_batch_end,
                          file_batch_end := st.file_batch_end + b.length },
          ?_, ?_, Nat.le_succ st.it, hbne, ?_, rfl, rfl, rfl⟩
        · rw [hslice]
        · refine ⟨hfile, by omega, by show st.it + 1 ≤ bs.length; omega,
            show st.file_batch_end + (b.length : Int)
              = (sumLenTake bs (st.it + 1) : Int) from hfbe1,
            Or.inr ⟨hbne, by show 1 ≤ st.it + 1; omega, ?_, ?_,
              by show st.file_batch_end ≤ end_; omega,
              show end_ ≤ st.file_batch_end + (b.length : Int) from hpart⟩⟩
          · show bs[st.it + 1 - 1]? = some b
            simpa using hb
          · show st.file_batch_end = (sumLenTake bs (st.it + 1 - 1) : Int)
            simpa using hfbe
        · show st.file_batch_end < end_
          omega
      · rw [if_neg hpart]
        have hsliceF : pySliceFrom b
            ((b.length : Int) - (st.file_batch_end + (b.length : Int)
              - max start st.file_batch_end))
            = rowsIn bs (max start st.file_batch_end).toNat
                (st.file_batch_end + (b.length : Int)).toNat := by
          rw [hcb, pySliceFrom_eq b (by omega)]
          rw [show (max start st.file_batch_end).toNat
                = sumLenTake bs st.it
                  + (max start st.file_batch_end - st.file_batch_end).toNat
              from by omega,
              show (st.file_batch_end + (b.length : Int)).toNat
                = sumLenTake bs st.it + b.length from by omega,
              rowsIn_batch hb _ _ (by omega) (le_refl _), List.take_length]
        obtain ⟨st2, heq, hinv, hit2, hpne, hfbs2, hcur, hpath, hcol⟩ :=
          ih { st with it := st.it + 1,
                       prev_batch := ([] : List α),
                       file_batch_start := st.file_batch_end,
                       file_batch_end := st.file_batch_end + b.length }
            (max start st.file_batch_end) end_
            (acc ++ pySliceFrom b
              ((b.length : Int) - (st.file_batch_end + (b.length : Int)
                - max start st.file_batch_end)))
            rfl hfile
            (show st.it + 1 ≤ bs.length from by omega)
            (show st.file_batch_end + (b.length : Int)
              = (sumLenTake bs (st.it + 1) : Int) from hfbe1)
            hM0
            (show max start st.file_batch_end < end_ from by omega)
            (show st.file_batch_end + (b.length : Int) < end_ from by omega)
            hend
            (show bs.length - (st.it + 1) < fuel from by omega)
        rw [show (max (max start st.file_batch_end)
              (st.file_batch_end + (b.length : Int))).toNat
            = (st.file_batch_end + (b.length : Int)).toNat from by omega]
          at heq
        refine ⟨st2, ?_, hinv, le_trans (Nat.le_succ st.it) hit2, hpne, hfbs2,
          hcur, hpath, hcol⟩
        rw [heq, hsliceF, List.append_assoc,
            rowsIn_append bs (by omega) (by omega)]


theorem extractLoop_leftover {α : Type} (bs : List (List α))
    (hne : ∀ b ∈ bs, b ≠ []) (fuel : Nat) (st : ParquetDataSet α)
    (start end_ : Int) (acc : List α)
    (hInv : pqInv bs st start) (hpne : st.prev_batch ≠ [])
    (hse : start < end_) (hend : end_ ≤ (sumLen bs : Int))
    (hfuel : bs.length + 1 - st.it < fuel) :
    ∃ st2, ParquetDataSet.extractLoop bs fuel st start end_ acc
        = .ok (acc ++ rowsIn bs start.toNat end_.toNat) st2
      ∧ pqInv bs st2 end_ ∧ st.it ≤ st2.it
      ∧ st2.prev_batch ≠ [] ∧ st2.file_batch_start < end_
      ∧ st2.current = st.current ∧ st2.dataset_path = st.dataset_path
      ∧ st2.column = st.column
      ∧ (end_ ≤ st.file_batch_end → st2 = st) := by
  obtain ⟨hfile, h0, hit, hfbe, hdisj⟩ := hInv
  rcases hdisj with ⟨hpe, _⟩ | ⟨_, hit1, hbprev, hfbs, hfbsc, hcfbe⟩
  · exact absurd hpe hpne
  cases fuel with
  | zero => omega
  | succ fuel =>
    have hlenb : st.file_batch_end
        = st.file_batch_start + (st.prev_batch.length : Int) := by
      have hs := sumLenTake_succ hbprev
      rw [show st.it - 1 + 1 = st.it from by omega] at hs
      rw [hfbe, hfbs]
      push_cast [hs]
      omega
    simp only [ParquetDataSet.extractLoop, get_batch_prev hpne]
    rw [if_neg (by simpa using hpne), if_neg (by omega : ¬ start > st.file_batch_end),
        if_neg (by omega : ¬ start < st.file_batch_start)]
    have hcb : (st.prev_batch.length : Int)
        - (st.file_batch_end - start) = start - st.file_batch_start := by omega
    by_cases hpart : end_ ≤ st.file_batch_end
    · rw [if_pos hpart]
      have hce : (st.prev_batch.length : Int) - (st.file_batch_end - end_)
          = end_ - st.file_batch_start := by omega
      have hslice : pySlice st.prev_batch
          ((st.prev_batch.length : Int) - (st.file_batch_end - start))
          ((st.prev_batch.length : Int) - (st.file_batch_end - end_))
          = rowsIn bs start.toNat end_.toNat := by
        rw [hcb, hce, pySlice_eq st.prev_batch (by omega) (by omega) (by omega)]
        rw [show start.toNat = sumLenTake bs (st.it - 1)
              + (start - st.file_batch_start).toNat from by omega,
            show end_.toNat = sumLenTake bs (st.it - 1)
              + (end_ - st.file_batch_start).toNat from by omega,
            rowsIn_batch hbprev _ _ (by omega) (by omega)]
      refine ⟨st, ?_, ?_, le_refl _, hpne, by omega, rfl, rfl, rfl, fun _ => rfl⟩
      · rw [hslice]
      · exact ⟨hfile, by omega, hit, hfbe,
          Or.inr ⟨hpne, hit1, hbprev, hfbs, by omega, hpart⟩⟩
    · rw [if_neg hpart]
      have hsliceF : pySliceFrom st.prev_batch
          ((st.prev_batch.length : Int) - (st.file_batch_end - start))
          = rowsIn bs start.toNat st.file_batch_end.toNat := by
        rw [hcb, pySliceFrom_eq st.prev_batch (by omega)]
        rw [show start.toNat = sumLenTake bs (st.it - 1)
              + (start - st.file_batch_start).toNat from by omega,
            show st.file_batch_end.toNat = sumLenTake bs (st.it - 1)
              + st.prev_batch.length from by omega,
            rowsIn_batch hbprev _ _ (by omega) (le_refl _), List.take_length]
      obtain ⟨st2, heq, hinv, hit2, hpne2, hfbs2, hcur, hpath, hcol⟩ :=
        extractLoop_pull bs hne fuel { st with prev_batch := ([] : List α) }
          start end_
          (acc ++ pySliceFrom st.prev_batch
            ((st.prev_batch.length : Int) - (st.file_batch_end - start)))
          rfl hfile hit hfbe (by omega) hse
          (show st.file_batch_end < end_ from by omega) hend
          (show bs.length - st.it < fuel from by omega)
      rw [show (max start st.file_batch_end).toNat = st.file_batch_end.toNat
          from by omega] at heq
      refine ⟨st2, ?_, hinv, hit2, hpne2, hfbs2, hcur, hpath, hcol,
        fun hcon => absurd hcon (by omega)⟩
      rw [heq, hsliceF, List.append_assoc,
          rowsIn_append bs (by omega) (by omega)]


theorem pqRead_ok {α : Type} (bs : List (List α)) (hne : ∀ b ∈ bs, b ≠ [])
    (nrows : Nat) (hn : nrows = sumLen bs) (st : ParquetDataSet α)
    (chunk : Int) (hInv : pqInv bs st st.current)
    (hlt : st.current < (nrows : Int)) (hc : 1 ≤ chunk) :
    ∃ st2, ParquetDataSet.read bs nrows chunk st
        = .ok (some (rowsIn bs st.current.toNat
            (min (st.current + chunk) (nrows : Int)).toNat))
          { st2 with current := min (st.current + chunk) (nrows : Int) }
      ∧ pqInv bs st2 (min (st.current + chunk) (nrows : Int))
      ∧ st.it ≤ st2.it ∧ st2.prev_batch ≠ []
      ∧ st2.file_batch_start < min (st.current + chunk) (nrows : Int)
      ∧ st2.dataset_path = st.dataset_path ∧ st2.column = st.column
      ∧ (st.prev_batch ≠ [] ∧
          min (st.current + chunk) (nrows : Int) ≤ st.file_batch_end →
          st2 = st) := by
  have hfile := hInv.1
  have h0cur := hInv.2.1
  have hmin : (if st.current + chunk > (nrows : Int) then (nrows : Int)
      else st.current + chunk) = min (st.current + chunk) (nrows : Int) := by
    split_ifs with h <;> omega
  simp only [ParquetDataSet.read, pq_load_of_some hfile]
  rw [if_neg (by omega), hmin]
  unfold ParquetDataSet.extract_vectors
  rcases Classical.em (st.prev_batch = []) with hpe | hpne'
  · have hcfbe : st.current = st.file_batch_end := by
      rcases hInv.2.2.2.2 with ⟨_, h⟩ | ⟨hq, _⟩
      · exact h
      · exact absurd hpe hq
    obtain ⟨st2, heq, hinv, hit2, hpne, hfbs2, hcur, hpath, hcol⟩ :=
      extractLoop_pull bs hne (bs.length + 2) st st.current
        (min (st.current + chunk) (nrows : Int)) [] hpe hfile hInv.2.2.1
        hInv.2.2.2.1 h0cur (by omega) (by omega) (by omega) (by omega)
    rw [show (max st.current st.file_batch_end).toNat = st.current.toNat
        from by omega] at heq
    rw [heq]
    exact ⟨st2, rfl, hinv, hit2, hpne, hfbs2, hpath, hcol,
      fun hcon => absurd hpe hcon.1⟩
  · obtain ⟨st2, heq, hinv, hit2, hpne, hfbs2, hcur, hpath, hcol, hfast⟩ :=
      extractLoop_leftover bs hne (bs.length + 2) st st.current
        (min (st.current + chunk) (nrows : Int)) [] hInv hpne' (by omega)
        (by omega) (by omega)
    rw [heq]
    refine ⟨st2, rfl, hinv, hit2, hpne, hfbs2, hpath, hcol,
      fun hcon => hfast hcon.2⟩

theorem extractLoop_zero {α : Type} (bs : List (List α))
    (hne : ∀ b ∈ bs, b ≠ []) (fuel : Nat) (st : ParquetDataSet α)
    (start : Int) (acc : List α) (hInv : pqInv bs st start)
    (hlt : start < (sumLen bs : Int)) :
    ∃ st2, ParquetDataSet.extractLoop bs (fuel + 1) st start start acc
        = .ok acc st2 ∧ st2.current = st.current := by
  obtain ⟨hfile, h0, hit, hfbe, hdisj⟩ := hInv
  rcases hdisj with ⟨hpe, hceq⟩ | ⟨hpne, hit1, hbprev, hfbs, hfbsc, hcfbe⟩
  · have hitlt : st.it < bs.length := by
      by_contra hcon
      have hix : st.it = bs.length := by omega
      rw [hix, sumLenTake_full] at hfbe
      omega
    have hb : bs[st.it]? = some bs[st.it] := List.getElem?_eq_getElem hitlt
    set b := bs[st.it] with hbdef
    have hbne : b ≠ [] := hne b (List.getElem_mem hitlt)
    simp only [ParquetDataSet.extractLoop, get_batch_pull hpe hb]
    rw [if_neg (by simpa using hbne),
        if_neg (show ¬ start > st.file_batch_end + (b.length : Int)
          from by omega),
        if_neg (show ¬ start < st.file_batch_end from by omega),
        if_pos (show start ≤ st.file_batch_end + (b.length : Int)
          from by omega)]
    refine ⟨{ st with
                it := st.it + 1,
                prev_batch := b,
                file_batch_start := st.file_batch_end,
                file_batch_end := st.file_batch_end + (b.length : Int) },
      ?_, rfl⟩
    rw [pySlice_of_le b (by omega) (le_refl _), List.append_nil]
  · have hlenb : st.file_batch_end
        = st.file_batch_start + (st.prev_batch.length : Int) := by
      have hs := sumLenTake_succ hbprev
      rw [show st.it - 1 + 1 = st.it from by omega] at hs
      rw [hfbe, hfbs]
      push_cast [hs]
      omega
    simp only [ParquetDataSet.extractLoop, get_batch_prev hpne]
    rw [if_neg (by simpa using hpne),
        if_neg (show ¬ start > st.file_batch_end from by omega),
        if_neg (show ¬ start < st.file_batch_start from by omega),
        if_pos (show start ≤ st.file_batch_end from hcfbe)]
    refine ⟨st, ?_, rfl⟩
    rw [pySlice_of_le st.prev_batch (by omega) (le_refl _), List.append_nil]

theorem pqRead_zero {α : Type} (bs : List (List α)) (hne : ∀ b ∈ bs, b ≠ [])
    (nrows : Nat) (hn : nrows = sumLen bs) (st : ParquetDataSet α)
    (hInv : pqInv bs st st.current) (hlt : st.current < (nrows : Int)) :
    ∃ st2, ParquetDataSet.read bs nrows 0 st = .ok (some []) st2
      ∧ st2.current = st.current := by
  have hfile := hInv.1
  have hmin : (if st.current + 0 > (nrows : Int) then (nrows : Int)
      else st.current + 0) = st.current := by
    split_ifs with h <;> omega
  simp only [ParquetDataSet.read, pq_load_of_some hfile]
  rw [if_neg (by omega), hmin]
  unfold ParquetDataSet.extract_vectors
  rw [show bs.length + 2 = (bs.length + 1) + 1 from rfl]
  obtain ⟨st2, heq, hcur⟩ :=
    extractLoop_zero bs hne (bs.length + 1) st st.current [] hInv (by omega)
  rw [heq]
  exact ⟨{ st2 with current := st.current }, rfl, hcur ▸ rfl⟩

theorem pqRead_eq_extract {α : Type} (bs : List (List α)) (nrows : Nat)
    (chunk : Int) (st : ParquetDataSet α) (hfile : st.file = some ())
    (hlt : st.current < (nrows : Int))
    (hin : st.current + chunk ≤ (nrows : Int)) :
    ParquetDataSet.read bs nrows chunk st
      = match ParquetDataSet.extract_vectors bs st st.current
            (st.current + chunk) with
        | .ok vs st2 => .ok (some vs) { st2 with current := st.current + chunk }
        | .err e st2 => .err e st2
        | .diverge => .diverge := by
  simp only [ParquetDataSet.read, pq_load_of_some hfile]
  rw [if_neg (by omega), if_neg (by omega)]

theorem pqReadSeq_ok {α : Type} (bs : List (List α))
    (hne : ∀ b ∈ bs, b ≠ []) (chunks : List Int) :
    ∀ (st : ParquetDataSet α), pqInv bs st st.current →
    (∀ c ∈ chunks, 1 ≤ c) →
    st.current.toNat + (chunks.map Int.toNat).sum ≤ sumLen bs →
    ∃ stF, pqReadSeq bs (sumLen bs) st chunks
        = some (chunkSplit (bs.flatten.drop st.current.toNat) chunks, stF) := by
  induction chunks with
  | nil => exact fun st _ _ _ => ⟨st, rfl⟩
  | cons c cs ih =>
    intro st hInv hpos hsum
    rw [List.map_cons, List.sum_cons] at hsum
    have hc : 1 ≤ c := hpos c (by simp)
    have h0 : 0 ≤ st.current := hInv.2.1
    have hlt : st.current < (sumLen bs : Int) := by omega
    obtain ⟨st2, heq, hinv2, _, _, _, _, _, _⟩ :=
      pqRead_ok bs hne (sumLen bs) rfl st c hInv hlt hc
    have hmin : min (st.current + c) ((sumLen bs : Int)) = st.current + c := by
      omega
    rw [hmin] at heq hinv2
    simp only [pqReadSeq, heq]
    have hinv2' : pqInv bs ({ st2 with current := st.current + c })
        (({ st2 with current := st.current + c }).current) := hinv2
    obtain ⟨stF, hseq⟩ := ih { st2 with current := st.current + c } hinv2'
      (fun x hx => hpos x (List.mem_cons_of_mem c hx))
      (by
        show (st.current + c).toNat + (cs.map Int.toNat).sum ≤ sumLen bs
        omega)
    have hseq' : pqReadSeq bs (sumLen bs) { st2 with current := st.current + c }
        cs = some (chunkSplit (bs.flatten.drop (st.current + c).toNat) cs, stF) :=
      hseq
    rw [hseq']
    refine ⟨stF, ?_⟩
    have ha : rowsIn bs st.current.toNat (st.current + c).toNat
        = (bs.flatten.drop st.current.toNat).take c.toNat := by
      rw [rowsIn_drop_take]
      congr 1
      omega
    have hb : bs.flatten.drop (st.current + c).toNat
        = (bs.flatten.drop st.current.toNat).drop c.toNat := by
      rw [List.drop_drop]
      congr 1
      omega
    simp only [Option.map_some', chunkSplit]
    rw [ha, hb]

/-- C5: for the columnar reader, any sequence of contiguous forward reads
(each chunk at least 1, total at most the row count) starting from a freshly
loaded handle terminates: every read returns exactly its requested range,
and the results cut the flattened batch rows into the requested chunks —
no read errors out or loops forever. -/
theorem c5_sequential_reads_terminate {α : Type} (path col : String)
    (bs : List (List α)) (hne : ∀ b ∈ bs, b ≠ [])
    (chunks : List Int) (hpos : ∀ c ∈ chunks, 1 ≤ c)
    (hsum : (chunks.map Int.toNat).sum ≤ sumLen bs) :
    ∃ stF, pqReadSeq bs (sumLen bs)
        (⟨path, col, some (), 0, 0, [], 0, 0⟩ : ParquetDataSet α) chunks
      = some (chunkSplit bs.flatten chunks, stF) := by
  have hInv : pqInv bs (⟨path, col, some (), 0, 0, [], 0, 0⟩ : ParquetDataSet α)
      ((⟨path, col, some (), 0, 0, [], 0, 0⟩ : ParquetDataSet α).current) :=
    ⟨rfl, le_refl 0, Nat.zero_le _, rfl, Or.inl ⟨rfl, rfl⟩⟩
  obtain ⟨stF, h⟩ := pqReadSeq_ok bs hne chunks _ hInv hpos (by simpa using hsum)
  exact ⟨stF, h⟩

/-- C5 (witness): two contiguous reads of sizes 1 and 2 over the 2x2-batch
file succeed and return rows [0,1) and [1,3). -/
theorem c5_sequential_reads_terminate_witness :
    ∃ stF, pqReadSeq cexBatches (sumLen cexBatches)
        (⟨"vec.parquet", "emb", some (), 0, 0, [], 0, 0⟩ : ParquetDataSet Nat)
        [1, 2]
      = some (chunkSplit cexBatches.flatten [1, 2], stF) :=
  c5_sequential_reads_terminate "vec.parquet" "emb" cexBatches (by decide)
    [1, 2] (by decide) (by decide)

/-- C2: over batches of sizes 500, 500 and 300 (1300 rows), a columnar read
of rows [450, 950) — the cursor placed at 450 by a seek on the fresh handle
— returns exactly the 500 vectors formed by rows [450,500) of batch 1
followed by rows [0,450) of batch 2; afterwards the iterator has pulled
exactly two batches (batch 1 is never fetched again) and batch 2 is retained
as the leftover batch with window [500,1000), so the next read of rows
[950,1000) is served from it without pulling batch 3. -/
theorem c2_columnar_stitching {α : Type} (path col : String)
    (b1 b2 b3 : List α) (h1 : b1.length = 500) (h2 : b2.length = 500)
    (h3 : b3.length = 300) :
    ParquetDataSet.seek 1300 450
        (⟨path, col, none, 0, 0, [], 0, 0⟩ : ParquetDataSet α)
      = (⟨path, col, some (), 450, 0, [], 0, 0⟩, none)
  ∧ ParquetDataSet.read [b1, b2, b3] 1300 500
        (⟨path, col, some (), 450, 0, [], 0, 0⟩ : ParquetDataSet α)
      = .ok (some (b1.drop 450 ++ b2.take 450))
          ⟨path, col, some (), 950, 2, b2, 500, 1000⟩
  ∧ (b1.drop 450 ++ b2.take 450).length = 500
  ∧ ParquetDataSet.read [b1, b2, b3] 1300 50
        (⟨path, col, some (), 950, 2, b2, 500, 1000⟩ : ParquetDataSet α)
      = .ok (some (b2.drop 450))
          ⟨path, col, some (), 1000, 2, b2, 500, 1000⟩ := by
  have hne : ∀ b ∈ [b1, b2, b3], b ≠ [] := by
    intro b hb
    simp only [List.mem_cons, List.not_mem_nil, or_false] at hb
    rcases hb with rfl | rfl | rfl
    · intro hc; rw [hc] at h1; simp at h1
    · intro hc; rw [hc] at h2; simp at h2
    · intro hc; rw [hc] at h3; simp at h3
  have hsum : sumLen [b1, b2, b3] = 1300 := by
    simp [sumLen, h1, h2, h3]
  have hs1 : sumLenTake [b1, b2, b3] 1 = 500 := by
    simp [sumLenTake, sumLen, h1]
  have hs2 : sumLenTake [b1, b2, b3] 2 = 1000 := by
    simp [sumLenTake, sumLen, h1, h2]
  have hb1 : ([b1, b2, b3] : List (List α))[0]? = some b1 := rfl
  have hb2 : ([b1, b2, b3] : List (List α))[1]? = some b2 := rfl
  have hval : rowsIn [b1, b2, b3] 450 950 = b1.drop 450 ++ b2.take 450 := by
    have hA := rowsIn_batch hb1 450 500 (by omega) (by omega)
    have hB := rowsIn_batch hb2 0 450 (by omega) (by omega)
    rw [show sumLenTake [b1, b2, b3] 0 + 450 = 450 from by
          simp [sumLenTake, sumLen],
        show sumLenTake [b1, b2, b3] 0 + 500 = 500 from by
          simp [sumLenTake, sumLen],
        List.take_of_length_le (show b1.length ≤ 500 from by omega)] at hA
    rw [show sumLenTake [b1, b2, b3] 1 + 0 = 500 from by omega,
        show sumLenTake [b1, b2, b3] 1 + 450 = 950 from by omega,
        List.drop_zero] at hB
    rw [← rowsIn_append [b1, b2, b3] (show 450 ≤ 500 from by omega)
          (show (500 : Nat) ≤ 950 from by omega), hA, hB]
  have hval2 : rowsIn [b1, b2, b3] 950 1000 = b2.drop 450 := by
    have hB := rowsIn_batch hb2 450 500 (by omega) (by omega)
    rw [show sumLenTake [b1, b2, b3] 1 + 450 = 950 from by omega,
        show sumLenTake [b1, b2, b3] 1 + 500 = 1000 from by omega,
        List.take_of_length_le (show b2.length ≤ 500 from by omega)] at hB
    exact hB
  refine ⟨rfl, ?_, ?_, ?_⟩
  · obtain ⟨st2, heq, hinv, hit2, hpne, hfbs2, hcur, hpath, hcol⟩ :=
      extractLoop_pull [b1, b2, b3] hne ([b1, b2, b3].length + 2)
        (⟨path, col, some (), 450, 0, [], 0, 0⟩ : ParquetDataSet α)
        450 950 [] rfl rfl (Nat.zero_le _) rfl
        (by decide) (by decide) (by norm_num) (by omega) (by omega)
    rw [List.nil_append,
        show (max (450 : Int)
            ((⟨path, col, some (), 450, 0, [], 0, 0⟩ :
              ParquetDataSet α).file_batch_end)).toNat = 450 from by
          dsimp only
          omega,
        show ((950 : Int)).toNat = 950 from rfl, hval] at heq
    obtain ⟨p', c', f', cur', it', pb', fbs', fbe'⟩ := st2
    obtain ⟨hf2, _, hitle, hfbe2, hdisj⟩ := hinv
    rcases hdisj with ⟨hpe2, _⟩ | ⟨_, hit1, hbprev, hfbs, _, hcfbe⟩
    · exact absurd hpe2 hpne
    have Hfbe : fbe' = (sumLenTake [b1, b2, b3] it' : Int) := hfbe2
    have Hfbs : fbs' = (sumLenTake [b1, b2, b3] (it' - 1) : Int) := hfbs
    have Hbprev : ([b1, b2, b3] : List (List α))[it' - 1]? = some pb' := hbprev
    have Hfbs2 : fbs' < 950 := hfbs2
    have Hcfbe : (950 : Int) ≤ fbe' := hcfbe
    have Hp : p' = path := hpath
    have Hc : c' = col := hcol
    have Hf : f' = some () := hf2
    have hit3 : it' ≤ 3 := by simpa using hitle
    have hit1' : 1 ≤ it' := hit1
    interval_cases it'
    · rw [hs1] at Hfbe
      omega
    · have hpb : pb' = b2 := by
        have h := Hbprev
        rw [show (2 : Nat) - 1 = 1 from rfl, hb2] at h
        exact (Option.some.inj h).symm
      have hfbs5 : fbs' = (500 : Int) := by
        rw [Hfbs, show (2 : Nat) - 1 = 1 from rfl, hs1]
        decide
      have hfbe5 : fbe' = (1000 : Int) := by
        rw [Hfbe, hs2]
        decide
      rw [hpb, hfbs5, hfbe5, Hf, Hp, Hc] at heq
      rw [pqRead_eq_extract [b1, b2, b3] 1300 500
            (⟨path, col, some (), 450, 0, [], 0, 0⟩ : ParquetDataSet α) rfl
            (by norm_num) (by norm_num),
          show ((⟨path, col, some (), 450, 0, [], 0, 0⟩ :
            ParquetDataSet α).current) = (450 : Int) from rfl,
          show ((450 : Int) + 500) = (950 : Int) from rfl]
      simp only [ParquetDataSet.extract_vectors]
      rw [heq]
    · rw [show (3 : Nat) - 1 = 2 from rfl, hs2] at Hfbs
      omega
  · rw [List.length_append, List.length_drop, List.length_take, h1, h2]
    decide
  · have hInv3 : pqInv [b1, b2, b3]
        (⟨path, col, some (), 950, 2, b2, 500, 1000⟩ : ParquetDataSet α)
        ((⟨path, col, some (), 950, 2, b2, 500, 1000⟩ :
          ParquetDataSet α).current) := by
      refine ⟨rfl, by norm_num, by norm_num, by simp [hs2],
        Or.inr ⟨hne b2 (by simp), by norm_num, hb2, by simp [hs1],
          by norm_num, by norm_num⟩⟩
    obtain ⟨st2', heq', hinv', hit2', hpne', hfbs2', hpath', hcol', hfast'⟩ :=
      pqRead_ok [b1, b2, b3] hne 1300 hsum.symm
        ⟨path, col, some (), 950, 2, b2, 500, 1000⟩ 50 hInv3
        (by norm_num) (by decide)
    have hst : st2' = ⟨path, col, some (), 950, 2, b2, 500, 1000⟩ :=
      hfast' ⟨hne b2 (by simp), by dsimp only; omega⟩
    rw [hst] at heq'
    rw [show (min ((⟨path, col, some (), 950, 2, b2, 500, 1000⟩ :
          ParquetDataSet α).current + 50) ((1300 : Nat) : Int)) = (1000 : Int)
        from by dsimp only; omega] at heq'
    rw [show (((⟨path, col, some (), 950, 2, b2, 500, 1000⟩ :
          ParquetDataSet α).current)).toNat = 950 from rfl,
        show ((1000 : Int)).toNat = 1000 from rfl, hval2] at heq'
    exact heq'

/-- C4 (amended): for every reader, read returns the empty marker exactly
when the cursor has reached size() at call time, leaving the cursor alone;
when the cursor is below size(), the hierarchical and flat readers return
exactly min(chunkSize, size() - cursor) vectors and advance the cursor by
that count from any state, while the columnar reader guarantees this only in
states satisfying the forward-iteration invariant (it fails after a backward
seek, see the counterexample). -/
theorem c4_read_contract_amended :
    (∀ (α : Type) (content : List α) (p c : String) (cur : Int)
       (cache : Option (List α)) (k : Int),
      cache = none ∨ cache = some content → 0 ≤ cur → 0 ≤ k →
      (((content.length : Int) ≤ cur →
         HDF5DataSet.read content k ⟨p, c, cur, cache⟩
           = (⟨p, c, cur, some content⟩, .ok none))
       ∧ (cur < (content.length : Int) →
          ∃ vs, HDF5DataSet.read content k ⟨p, c, cur, cache⟩
              = (⟨p, c, cur + (vs.length : Int), some content⟩, .ok (some vs))
            ∧ (vs.length : Int) = min k ((content.length : Int) - cur))))
  ∧ (∀ (bytes : List Byte) (st : BigANNVectorDataSet) (k : Int),
      bigannWF bytes st → 0 ≤ k →
      (((st.num_points : Int) ≤ st.current →
         BigANNVectorDataSet.read (some bytes) k st = (st, .ok none))
       ∧ (st.current < (st.num_points : Int) →
          ∃ vs, BigANNVectorDataSet.read (some bytes) k st
              = ({ st with
                     current := st.current + (vs.length : Int),
                     file := some (8 + st.dimension * st.bytes_per_num
                       * (st.current + (vs.length : Int)).toNat) },
                 .ok (some vs))
            ∧ (vs.length : Int)
                = min k ((st.num_points : Int) - st.current))))
  ∧ (∀ (α : Type) (bs : List (List α)) (st : ParquetDataSet α) (k : Int),
      (∀ b ∈ bs, b ≠ []) → pqInv bs st st.current → 1 ≤ k →
      (((sumLen bs : Int) ≤ st.current →
         ∃ st2, ParquetDataSet.read bs (sumLen bs) k st = .ok none st2
           ∧ st2.current = st.current)
       ∧ (st.current < (sumLen bs : Int) →
          ∃ vs st2, ParquetDataSet.read bs (sumLen bs) k st
              = .ok (some vs) st2
            ∧ st2.current = st.current + (vs.length : Int)
            ∧ (vs.length : Int)
                = min k ((sumLen bs : Int) - st.current)))) := by
  refine ⟨?_, ?_, ?_⟩
  · intro α content p c cur cache k hcache h0 hk
    constructor
    · intro hge
      rcases hcache with h | h <;> subst h <;>
        simp only [HDF5DataSet.read, HDF5DataSet.load, Option.isNone_none,
          Option.isNone_some, Option.getD_some, if_true, Bool.false_eq_true,
          if_false] <;>
        rw [if_pos (by omega)]
    · intro hlt
      have h := hdf5_read_state content p c k cur cache hcache h0 hlt hk
      have hlen : (((content.drop cur.toNat).take
          ((min (cur + k) ((content.length : Int))) - cur).toNat)).length
          = ((min (cur + k) ((content.length : Int))) - cur).toNat := by
        rw [List.length_take, List.length_drop]
        omega
      refine ⟨(content.drop cur.toNat).take
          ((min (cur + k) ((content.length : Int))) - cur).toNat, ?_, ?_⟩
      · rw [h, show cur + ((((content.drop cur.toNat).take
            ((min (cur + k) ((content.length : Int))) - cur).toNat)).length : Int)
            = min (cur + k) ((content.length : Int)) from by rw [hlen]; omega]
      · rw [hlen]
        omega
  · intro bytes st k hWF hk
    constructor
    · intro hge
      simp only [BigANNVectorDataSet.read, bigann_load_of_some hWF.2.1]
      rw [if_pos (by omega)]
    · intro hlt
      have h := bigannRead_ok bytes st k hWF hlt hk
      have hlen : (rowsFromPos (extOf st.dataset_path) bytes st.dimension
          st.bytes_per_num
          ((min (st.current + k) ((st.num_points : Int))) - st.current).toNat
          (8 + st.dimension * st.bytes_per_num * st.current.toNat)).length
          = ((min (st.current + k) ((st.num_points : Int))) - st.current).toNat :=
        length_rowsFromPos _ _ _ _ _ _
      have hc0 := hWF.1
      refine ⟨rowsFromPos (extOf st.dataset_path) bytes st.dimension
          st.bytes_per_num
          ((min (st.current + k) ((st.num_points : Int))) - st.current).toNat
          (8 + st.dimension * st.bytes_per_num * st.current.toNat), ?_, ?_⟩
      · rw [h, show st.current + ((rowsFromPos (extOf st.dataset_path) bytes
            st.dimension st.bytes_per_num
            ((min (st.current + k) ((st.num_points : Int))) - st.current).toNat
            (8 + st.dimension * st.bytes_per_num * st.current.toNat)).length : Int)
            = min (st.current + k) ((st.num_points : Int))
            from by rw [hlen]; omega]
      · rw [hlen]
        omega
  · intro α bs st k hne hInv hk
    have h0 := hInv.2.1
    constructor
    · intro hge
      have hl : (ParquetDataSet.load st).current = st.current :=
        pq_load_current st
      refine ⟨ParquetDataSet.load st, ?_, hl⟩
      simp only [ParquetDataSet.read]
      rw [if_pos (by rw [hl]; omega)]
    · intro hlt
      obtain ⟨st2, heq, hinv2, _, _, _, _, _, _⟩ :=
        pqRead_ok bs hne (sumLen bs) rfl st k hInv hlt hk
      have hlen : (rowsIn bs st.current.toNat
          (min (st.current + k) ((sumLen bs : Int))).toNat).length
          = (min (st.current + k) ((sumLen bs : Int))).toNat
            - st.current.toNat := by
        refine length_rowsIn bs ?_ ?_ <;> omega
      refine ⟨rowsIn bs st.current.toNat
          (min (st.current + k) ((sumLen bs : Int))).toNat,
        { st2 with current := min (st.current + k) ((sumLen bs : Int)) },
        heq, ?_, ?_⟩
      · show min (st.current + k) ((sumLen bs : Int))
          = st.current + ((rowsIn bs st.current.toNat
              (min (st.current + k) ((sumLen bs : Int))).toNat).length : Int)
        rw [hlen]
        omega
      · rw [hlen]
        omega

/-- C4 (witness): the contract evaluated on concrete data: the 3-row
hierarchical dataset read with chunk 2 from cursor 1, the 2x2 fbin file read
with chunk 5 from a fresh loaded handle, and the 4-row columnar reader read
with chunk 3 from a fresh loaded handle. -/
theorem c4_read_contract_amended_witness :
    (∃ vs : List Nat, HDF5DataSet.read [10, 20, 30] 2
          (⟨"data.hdf5", "train", 1, none⟩ : HDF5DataSet Nat)
        = (⟨"data.hdf5", "train", 1 + (vs.length : Int), some [10, 20, 30]⟩,
           .ok (some vs))
      ∧ (vs.length : Int)
          = min 2 ((([10, 20, 30] : List Nat).length : Int) - 1))
  ∧ (∃ vs, BigANNVectorDataSet.read (some c1bytes) 5
          (⟨"vectors.fbin", some 8, 0, 2, 2, 4⟩ : BigANNVectorDataSet)
        = (⟨"vectors.fbin",
            some (8 + 2 * 4 * ((0 : Int) + (vs.length : Int)).toNat),
            (0 : Int) + (vs.length : Int), 2, 2, 4⟩, .ok (some vs))
      ∧ (vs.length : Int) = min 5 (((2 : Nat) : Int) - 0))
  ∧ (∃ vs st2, ParquetDataSet.read cexBatches (sumLen cexBatches) 3
          (⟨"vec.parquet", "emb", some (), 0, 0, [], 0, 0⟩ : ParquetDataSet Nat)
        = .ok (some vs) st2
      ∧ st2.current = 0 + (vs.length : Int)
      ∧ (vs.length : Int) = min 3 ((sumLen cexBatches : Int) - 0)) :=
  ⟨(c4_read_contract_amended.1 Nat [10, 20, 30] "data.hdf5" "train" 1 none 2
      (Or.inl rfl) (by decide) (by decide)).2 (by decide),
   (c4_read_contract_amended.2.1 c1bytes ⟨"vectors.fbin", some 8, 0, 2, 2, 4⟩
      5 (by decide) (by decide)).2 (by decide),
   (c4_read_contract_amended.2.2 Nat cexBatches
      ⟨"vec.parquet", "emb", some (), 0, 0, [], 0, 0⟩ 3 (by decide)
      (by decide) (by decide)).2 (by decide)⟩

/-- C10 (amended): with the cursor strictly below size(), read(0) returns an
empty batch (not the empty marker and not an error) and leaves the cursor
unchanged for the hierarchical and flat readers in every state, and for the
columnar reader in every state satisfying the forward-iteration invariant;
outside that invariant the columnar extraction loop can instead run forever
(see the counterexample). -/
theorem c10_read_zero_amended :
    (∀ (α : Type) (content : List α) (p c : String) (cur : Int)
       (cache : Option (List α)),
      cache = none ∨ cache = some content → 0 ≤ cur →
      cur < (content.length : Int) →
      HDF5DataSet.read content 0 ⟨p, c, cur, cache⟩
        = (⟨p, c, cur, some content⟩, .ok (some [])))
  ∧ (∀ (bytes : List Byte) (st : BigANNVectorDataSet),
      bigannWF bytes st → st.current < (st.num_points : Int) →
      BigANNVectorDataSet.read (some bytes) 0 st = (st, .ok (some [])))
  ∧ (∀ (α : Type) (bs : List (List α)) (st : ParquetDataSet α),
      (∀ b ∈ bs, b ≠ []) → pqInv bs st st.current →
      st.current < (sumLen bs : Int) →
      ∃ st2, ParquetDataSet.read bs (sumLen bs) 0 st = .ok (some []) st2
        ∧ st2.current = st.current) := by
  refine ⟨?_, ?_, ?_⟩
  · intro α content p c cur cache hcache h0 hlt
    have h := hdf5_read_state content p c 0 cur cache hcache h0 hlt (le_refl 0)
    rw [show min (cur + 0) ((content.length : Int)) = cur from by omega] at h
    rw [show ((cur - cur)).toNat = 0 from by omega, List.take_zero] at h
    exact h
  · intro bytes st hWF hlt
    have h := bigannRead_ok bytes st 0 hWF hlt (le_refl 0)
    rw [show min (st.current + 0) ((st.num_points : Int)) = st.current
        from by omega] at h
    rw [show ((st.current - st.current)).toNat = 0 from by omega] at h
    rw [show rowsFromPos (extOf st.dataset_path) bytes st.dimension
        st.bytes_per_num 0
        (8 + st.dimension * st.bytes_per_num * st.current.toNat) = []
        from by simp [rowsFromPos]] at h
    rw [show st.current.toNat = (min (st.current + 0)
        ((st.num_points : Int))).toNat from by omega] at h
    rw [show min (st.current + 0) ((st.num_points : Int)) = st.current
        from by omega] at h
    rw [← hWF.2.1] at h
    exact h
  · intro α bs st hne hInv hlt
    exact pqRead_zero bs hne (sumLen bs) rfl st hInv hlt

/-- C10 (witness): read(0) on the 3-row hierarchical dataset at cursor 1, on
the 2x2 fbin file at cursor 0, and on the freshly loaded 4-row columnar
reader, each return an empty batch with the cursor unmoved. -/
theorem c10_read_zero_amended_witness :
    (HDF5DataSet.read [10, 20, 30] 0
        (⟨"data.hdf5", "train", 1, none⟩ : HDF5DataSet Nat)
      = (⟨"data.hdf5", "train", 1, some [10, 20, 30]⟩, .ok (some [])))
  ∧ (BigANNVectorDataSet.read (some c1bytes) 0
        (⟨"vectors.fbin", some 8, 0, 2, 2, 4⟩ : BigANNVectorDataSet)
      = (⟨"vectors.fbin", some 8, 0, 2, 2, 4⟩, .ok (some [])))
  ∧ (∃ st2, ParquetDataSet.read cexBatches (sumLen cexBatches) 0
        (⟨"vec.parquet", "emb", some (), 0, 0, [], 0, 0⟩ : ParquetDataSet Nat)
      = .ok (some []) st2
    ∧ st2.current = 0) :=
  ⟨c10_read_zero_amended.1 Nat [10, 20, 30] "data.hdf5" "train" 1 none
      (Or.inl rfl) (by decide) (by decide),
   c10_read_zero_amended.2.1 c1bytes ⟨"vectors.fbin", some 8, 0, 2, 2, 4⟩
      (by decide) (by decide),
   c10_read_zero_amended.2.2 Nat cexBatches
      ⟨"vec.parquet", "emb", some (), 0, 0, [], 0, 0⟩ (by decide) (by decide)
      (by decide)⟩

/-- C2 (witness): the stitched read on concrete batches of sizes 500, 500
and 300. -/
theorem c2_columnar_stitching_witness :
    ParquetDataSet.read [List.replicate 500 (0 : Nat), List.replicate 500 1,
        List.replicate 300 2] 1300 500
        (⟨"vec.parquet", "emb", some (), 450, 0, [], 0, 0⟩ : ParquetDataSet Nat)
      = .ok (some ((List.replicate 500 (0 : Nat)).drop 450
          ++ (List.replicate 500 1).take 450))
          ⟨"vec.parquet", "emb", some (), 950, 2, List.replicate 500 1,
           500, 1000⟩ :=
  (c2_columnar_stitching "vec.parquet" "emb" (List.replicate 500 0)
    (List.replicate 500 1) (List.replicate 300 2)
    (by rw [List.length_replicate]) (by rw [List.length_replicate])
    (by rw [List.length_replicate])).2.1

end Dataset
